import Mathlib

/-!
Verification of the GPX track-optimization core of runPlanProd.

The Lean definitions below are a shallow embedding of
`backend/utils/gpx_optimizer.py` (class `GPXOptimizer`) and of the
statistics part of `backend/utils/gpx_processor.py`.  Python floats are
modelled as real numbers; the one fallible stage
(`_ensure_minimum_density`, which can hit a `ZeroDivisionError`) returns
an `Option`.
-/

namespace Gpx

noncomputable section

open Real

/-- Model of Python `math.radians`. -/
def radians (x : ℝ) : ℝ := x * Real.pi / 180

/-- Model of Python `math.degrees`. -/
def degrees (x : ℝ) : ℝ := x * 180 / Real.pi

/-- Model of Python `math.atan2` on real (non floating-point) arguments. -/
def atan2 (y x : ℝ) : ℝ :=
  if 0 < x then Real.arctan (y / x)
  else if x < 0 then
    (if 0 ≤ y then Real.arctan (y / x) + Real.pi else Real.arctan (y / x) - Real.pi)
  else if 0 < y then Real.pi / 2
  else if y < 0 then -(Real.pi / 2)
  else 0

/-- Model of Python `int(...)` applied to a float: truncation toward zero. -/
def pyint (x : ℝ) : ℤ := if 0 ≤ x then ⌊x⌋ else ⌈x⌉

/-- An input track point (dict with `lat`, `lng`/`longitude`, `elevation` keys);
per the ingestion contract the elevation default `0` is already supplied. -/
structure RawPoint where
  latitude : ℝ
  longitude : ℝ
  elevation : ℝ
deriving Inhabited

/-- An annotated point as produced by `_add_distance_data`: the input dict
plus the `distance_from_start` and `index` keys. -/
structure WorkingPoint where
  latitude : ℝ
  longitude : ℝ
  elevation : ℝ
  distance_from_start : ℝ
  index : ℕ
deriving Inhabited

/-- `TrackPoint` dataclass of `gpx_optimizer.py`. -/
structure TrackPoint where
  latitude : ℝ
  longitude : ℝ
  elevation : ℝ
  distance_from_start : ℝ
deriving Inhabited

/-- Statistics dict returned by `calculate_route_statistics`. -/
structure RouteStatistics where
  total_distance : ℝ
  elevation_gain : ℝ
  elevation_loss : ℝ
deriving Inhabited

/-- The `GPXOptimizer` instance: its three configuration fields. -/
structure GPXOptimizer where
  distance_tolerance : ℝ
  elevation_tolerance : ℝ
  max_points_per_km : ℕ

namespace Optimizer

/-- `GPXOptimizer._haversine_distance`. -/
def haversine_distance (lat1 lon1 lat2 lon2 : ℝ) : ℝ :=
  let R : ℝ := 6371000
  let lat1_rad := radians lat1
  let lat2_rad := radians lat2
  let delta_lat := radians (lat2 - lat1)
  let delta_lon := radians (lon2 - lon1)
  let a := Real.sin (delta_lat / 2) ^ 2 +
    Real.cos lat1_rad * Real.cos lat2_rad * Real.sin (delta_lon / 2) ^ 2
  let c := 2 * atan2 (Real.sqrt a) (Real.sqrt (1 - a))
  R * c

end Optimizer

namespace Processor

/-- `gpx_processor.haversine_distance`. -/
def haversine_distance (lat1 lon1 lat2 lon2 : ℝ) : ℝ :=
  let lat1_rad := radians lat1
  let lat2_rad := radians lat2
  let dlat := lat2_rad - lat1_rad
  let dlon := radians lon2 - radians lon1
  let a := Real.sin (dlat / 2) ^ 2 +
    Real.cos lat1_rad * Real.cos lat2_rad * Real.sin (dlon / 2) ^ 2
  let c := 2 * Real.arcsin (Real.sqrt a)
  6371000 * c

/-- One iteration of the statistics loop in `calculate_route_statistics`. -/
def stats_step (acc : RouteStatistics) (prev curr : RawPoint) : RouteStatistics :=
  let distance := haversine_distance prev.latitude prev.longitude curr.latitude curr.longitude
  let elevation_diff := curr.elevation - prev.elevation
  if 0 < elevation_diff then
    ⟨acc.total_distance + distance, acc.elevation_gain + elevation_diff, acc.elevation_loss⟩
  else
    ⟨acc.total_distance + distance, acc.elevation_gain, acc.elevation_loss + |elevation_diff|⟩

/-- The pairwise walk of `calculate_route_statistics`. -/
def statsAux (prev : RawPoint) (acc : RouteStatistics) : List RawPoint → RouteStatistics
  | [] => acc
  | p :: rest => statsAux p (stats_step acc prev p) rest

/-- `gpx_processor.calculate_route_statistics`. -/
def calculate_route_statistics (track_points : List RawPoint) : RouteStatistics :=
  if track_points.length < 2 then ⟨0, 0, 0⟩
  else
    match track_points with
    | [] => ⟨0, 0, 0⟩
    | p :: rest => statsAux p ⟨0, 0, 0⟩ rest

end Processor

namespace Optimizer

open Classical in
/-- `GPXOptimizer._perpendicular_distance`. -/
def perpendicular_distance (point line_start line_end : WorkingPoint) : ℝ :=
  let x0 := point.longitude
  let y0 := point.latitude
  let x1 := line_start.longitude
  let y1 := line_start.latitude
  let x2 := line_end.longitude
  let y2 := line_end.latitude
  let numerator := |(y2 - y1) * x0 - (x2 - x1) * y0 + x2 * y1 - y2 * x1|
  let denominator := Real.sqrt ((y2 - y1) ^ 2 + (x2 - x1) ^ 2)
  if denominator = 0 then 0
  else numerator / denominator * 111000

/-- `GPXOptimizer._calculate_bearing`. -/
def calculate_bearing (p1 p2 : WorkingPoint) : ℝ :=
  let lat1 := radians p1.latitude
  let lat2 := radians p2.latitude
  let delta_lon := radians (p2.longitude - p1.longitude)
  let y := Real.sin delta_lon * Real.cos lat2
  let x := Real.cos lat1 * Real.sin lat2 -
    Real.sin lat1 * Real.cos lat2 * Real.cos delta_lon
  degrees (atan2 y x)

open Classical in
/-- `GPXOptimizer._is_significant_direction_change`. -/
def is_significant_direction_change (p1 p2 p3 : WorkingPoint) : Prop :=
  let bearing1 := calculate_bearing p1 p2
  let bearing2 := calculate_bearing p2 p3
  let angle_change := |bearing2 - bearing1|
  (if 180 < angle_change then 360 - angle_change else angle_change) > 15

/-- `GPXOptimizer._is_significant_elevation_change`. -/
def is_significant_elevation_change (self : GPXOptimizer) (p1 p2 p3 : WorkingPoint) : Prop :=
  ((p2.elevation > p1.elevation ∧ p2.elevation > p3.elevation) ∨
    (p2.elevation < p1.elevation ∧ p2.elevation < p3.elevation)) ∧
  max |p2.elevation - p1.elevation| |p2.elevation - p3.elevation| > self.elevation_tolerance

/-- `GPXOptimizer._is_significant_distance_gap`. -/
def is_significant_distance_gap (p1 p2 : WorkingPoint) : Prop :=
  p2.distance_from_start - p1.distance_from_start > 100

/-- The retention test of `_remove_redundant_points`. -/
def should_keep (self : GPXOptimizer) (prev_point curr_point next_point : WorkingPoint) : Prop :=
  is_significant_direction_change prev_point curr_point next_point ∨
  is_significant_elevation_change self prev_point curr_point next_point ∨
  is_significant_distance_gap prev_point curr_point

/-- The loop of `GPXOptimizer._add_distance_data` from index 1 on. -/
def add_distance_data_aux (prev : RawPoint) (total : ℝ) (i : ℕ) :
    List RawPoint → List WorkingPoint
  | [] => []
  | p :: rest =>
    let t := total + haversine_distance prev.latitude prev.longitude p.latitude p.longitude
    ⟨p.latitude, p.longitude, p.elevation, t, i⟩ :: add_distance_data_aux p t (i + 1) rest

/-- `GPXOptimizer._add_distance_data`. -/
def add_distance_data : List RawPoint → List WorkingPoint
  | [] => []
  | p :: rest => ⟨p.latitude, p.longitude, p.elevation, 0, 0⟩ :: add_distance_data_aux p 0 1 rest

open Classical in
/-- The interior loop of `_remove_redundant_points`: `prev` is the last
retained point, the list argument is `points[i:]`; its last element is
appended unconditionally. -/
def remove_redundant_points_aux (self : GPXOptimizer) (prev : WorkingPoint) :
    List WorkingPoint → List WorkingPoint
  | [] => []
  | [lastp] => [lastp]
  | curr :: next :: rest =>
    if should_keep self prev curr next
    then curr :: remove_redundant_points_aux self curr (next :: rest)
    else remove_redundant_points_aux self prev (next :: rest)

/-- `GPXOptimizer._remove_redundant_points`. -/
def remove_redundant_points (self : GPXOptimizer) (points : List WorkingPoint) :
    List WorkingPoint :=
  if points.length < 3 then points
  else
    match points with
    | [] => []
    | p :: rest => p :: remove_redundant_points_aux self p rest

open Classical in
/-- The max-distance scan at the top of `_douglas_peucker`: fold over the
interior indices `1 .. len-2`, carrying `(max_distance, max_index)`,
initialized to `(0, 0)`. -/
def find_max (points : List WorkingPoint) : ℝ × ℕ :=
  (List.range' 1 (points.length - 2)).foldl
    (fun acc i =>
      let distance := perpendicular_distance (points.getD i default)
        points.headI points.getLastI
      if acc.1 < distance then (distance, i) else acc)
    (0, 0)

open Classical in
/-- `GPXOptimizer._douglas_peucker`.  The recursion is guarded by the bounds
`1 ≤ max_index` and `max_index + 2 ≤ len`, which always hold when
`max_distance > 0`; when all interior distances are zero the source would only
recurse for a negative tolerance (where the Python code never terminates). -/
def douglas_peucker (points : List WorkingPoint) (tolerance : ℝ) : List WorkingPoint :=
  if points.length < 3 then points
  else
    if h : tolerance < (find_max points).1 ∧ 1 ≤ (find_max points).2 ∧
        (find_max points).2 + 2 ≤ points.length then
      (douglas_peucker (points.take ((find_max points).2 + 1)) tolerance).dropLast ++
        douglas_peucker (points.drop (find_max points).2) tolerance
    else [points.headI, points.getLastI]
termination_by points.length
decreasing_by
  · simp only [List.length_take]
    omega
  · simp only [List.length_drop]
    omega

/-- Python `max` over a nonempty list of floats (`0` on the empty list,
where the source would raise). -/
def list_max : List ℝ → ℝ
  | [] => 0
  | x :: xs => xs.foldl max x

/-- Python `min` over a nonempty list of floats (`0` on the empty list,
where the source would raise). -/
def list_min : List ℝ → ℝ
  | [] => 0
  | x :: xs => xs.foldl min x

open Classical in
/-- `GPXOptimizer._is_elevation_peak_or_valley`. -/
def is_elevation_peak_or_valley (points : List WorkingPoint) (index : ℕ) : Prop :=
  if index = 0 ∨ points.length - 1 ≤ index then False
  else
    let window_size := min 5 (points.length / 10)
    let start_idx := index - window_size
    let end_idx := min points.length (index + window_size + 1)
    let current_elevation := (points.getD index default).elevation
    let nearby_elevations :=
      (((points.drop start_idx).take (end_idx - start_idx)).filter
        (fun p => p ≠ points.getD index default)).map (fun p => p.elevation)
    nearby_elevations ≠ [] ∧
      (current_elevation > list_max nearby_elevations ∨
        current_elevation < list_min nearby_elevations)

open Classical in
/-- Insertion step of the stable sort modelling
`all_points.sort(key=lambda x: x['distance_from_start'])`. -/
def sort_insert (x : WorkingPoint) : List WorkingPoint → List WorkingPoint
  | [] => [x]
  | y :: ys =>
    if x.distance_from_start ≤ y.distance_from_start then x :: y :: ys
    else y :: sort_insert x ys

/-- Stable sort by `distance_from_start` (Python `list.sort` with that key is
a stable sort; insertion sort inserting after equal keys has the same
input/output behaviour). -/
def sort_by_distance : List WorkingPoint → List WorkingPoint
  | [] => []
  | x :: xs => sort_insert x (sort_by_distance xs)

open Classical in
/-- The minimum 5 m separation loop at the end of
`_preserve_elevation_features`; `last` is the last kept point. -/
def merge_aux (last : WorkingPoint) : List WorkingPoint → List WorkingPoint
  | [] => []
  | p :: rest =>
    if 5 < haversine_distance last.latitude last.longitude p.latitude p.longitude
    then p :: merge_aux p rest
    else merge_aux last rest

open Classical in
/-- The `elevation_features` list built by the scan loop at the top of
`_preserve_elevation_features`. -/
def elevation_features (original_points : List WorkingPoint) : List WorkingPoint :=
  original_points.filter
    (fun point => is_elevation_peak_or_valley original_points point.index)

/-- `GPXOptimizer._preserve_elevation_features`. -/
def preserve_elevation_features (original_points simplified_points : List WorkingPoint) :
    List WorkingPoint :=
  let all_points := simplified_points ++ elevation_features original_points
  let sorted_points := sort_by_distance all_points
  match sorted_points with
  | [] => []
  | p :: rest => p :: merge_aux p rest

/-- The local `max_total_points = int(total_distance_km * self.max_points_per_km)`
of `_ensure_minimum_density`, with `total_distance = points[-1]['distance_from_start']`. -/
def max_total_points (self : GPXOptimizer) (points : List WorkingPoint) : ℤ :=
  pyint (points.getLastI.distance_from_start / 1000 * self.max_points_per_km)

/-- The local `step = len(points) / max_total_points` of `_ensure_minimum_density`. -/
def density_step (self : GPXOptimizer) (points : List WorkingPoint) : ℝ :=
  (points.length : ℝ) / ((max_total_points self points).toNat : ℝ)

open Classical in
/-- The local `sampled` list of `_ensure_minimum_density`:
`for i in range(max_total_points): index = int(i * step); if index < len(points):
sampled.append(points[index])`. -/
def density_sampled (self : GPXOptimizer) (points : List WorkingPoint) : List WorkingPoint :=
  (List.range (max_total_points self points).toNat).filterMap
    (fun i : ℕ =>
      if pyint ((i : ℝ) * density_step self points) < (points.length : ℤ) then
        some (points.getD (pyint ((i : ℝ) * density_step self points)).toNat default)
      else none)

open Classical in
/-- `GPXOptimizer._ensure_minimum_density`.  `none` models the uncaught
exception the source raises when `max_total_points <= 0` and the branch is
reached: a `ZeroDivisionError` from `step = len(points) / 0` when it is `0`
(and an `IndexError` from `sampled[-1]` when it is negative, which needs a
negative cumulative distance and is unreachable from the pipeline). -/
def ensure_minimum_density (self : GPXOptimizer) (points : List WorkingPoint) :
    Option (List WorkingPoint) :=
  if points.length < 2 then some points
  else if (points.length : ℤ) ≤ max_total_points self points then some points
  else if max_total_points self points ≤ 0 then none
  else if (density_sampled self points).getLastI ≠ points.getLastI then
    some (density_sampled self points ++ [points.getLastI])
  else some (density_sampled self points)

/-- `GPXOptimizer._convert_to_track_points` on annotated points (every
dict key present). -/
def convert_to_track_points (points : List WorkingPoint) : List TrackPoint :=
  points.map (fun p => ⟨p.latitude, p.longitude, p.elevation, p.distance_from_start⟩)

/-- `GPXOptimizer._convert_to_track_points` on raw input points, where the
`distance_from_start` key is missing and `.get` yields the default `0`. -/
def convert_raw_to_track_points (points : List RawPoint) : List TrackPoint :=
  points.map (fun p => ⟨p.latitude, p.longitude, p.elevation, 0⟩)

open Classical in
/-- `GPXOptimizer.optimize_track`. -/
def optimize_track (self : GPXOptimizer) (track_points : List RawPoint) :
    Option (List TrackPoint) :=
  if track_points.length < 3 then some (convert_raw_to_track_points track_points)
  else
    let processed_points := add_distance_data track_points
    let filtered_points := remove_redundant_points self processed_points
    let simplified_points := douglas_peucker filtered_points self.distance_tolerance
    let elevation_preserved := preserve_elevation_features processed_points simplified_points
    (ensure_minimum_density self elevation_preserved).map convert_to_track_points

/-- The `elevation_preserved` intermediate value of `optimize_track` (the
input handed to `_ensure_minimum_density`, i.e. the density capper). -/
def elevation_preserved_stage (self : GPXOptimizer) (track_points : List RawPoint) :
    List WorkingPoint :=
  preserve_elevation_features (add_distance_data track_points)
    (douglas_peucker (remove_redundant_points self (add_distance_data track_points))
      self.distance_tolerance)

end Optimizer

/-! ### Basic facts about the `atan2` model -/

theorem arctan_nonneg_of_nonneg {t : ℝ} (h : 0 ≤ t) : 0 ≤ Real.arctan t :=
  Real.arctan_zero ▸ Real.arctan_strictMono.monotone h

theorem arctan_nonpos_of_nonpos {t : ℝ} (h : t ≤ 0) : Real.arctan t ≤ 0 :=
  Real.arctan_zero ▸ Real.arctan_strictMono.monotone h

theorem atan2_nonneg {y x : ℝ} (hy : 0 ≤ y) (hx : 0 ≤ x) : 0 ≤ atan2 y x := by
  have hpi := Real.pi_pos
  unfold atan2
  split_ifs with h1 h2 h3 h4
  all_goals first
    | exact arctan_nonneg_of_nonneg (div_nonneg hy (le_of_lt h1))
    | linarith
    | exact le_refl 0

theorem atan2_zero_one : atan2 0 1 = 0 := by
  unfold atan2
  rw [if_pos one_pos]
  simp [Real.arctan_zero]

theorem neg_pi_lt_atan2 (y x : ℝ) : -Real.pi < atan2 y x := by
  have hpi := Real.pi_pos
  have h1 := Real.neg_pi_div_two_lt_arctan (y / x)
  have h2 := Real.arctan_lt_pi_div_two (y / x)
  unfold atan2
  split_ifs with hx hx2 hy hy2 hy3
  · linarith
  · linarith
  · have hyx : 0 < y / x := div_pos_iff.mpr (Or.inr ⟨lt_of_not_le hy, hx2⟩)
    have : 0 < Real.arctan (y / x) := by
      calc (0 : ℝ) = Real.arctan 0 := Real.arctan_zero.symm
      _ < Real.arctan (y / x) := Real.arctan_strictMono hyx
    linarith
  · linarith
  · linarith
  · linarith

theorem atan2_le_pi (y x : ℝ) : atan2 y x ≤ Real.pi := by
  have hpi := Real.pi_pos
  have h1 := Real.neg_pi_div_two_lt_arctan (y / x)
  have h2 := Real.arctan_lt_pi_div_two (y / x)
  unfold atan2
  split_ifs with hx hx2 hy hy2 hy3
  · linarith
  · have hyx : y / x ≤ 0 := div_nonpos_of_nonneg_of_nonpos hy (le_of_lt hx2)
    have := arctan_nonpos_of_nonpos hyx
    linarith
  · linarith
  · linarith
  · linarith
  · linarith

/-! ### Generic list helpers -/

theorem sublist_dropLast {α : Type} : ∀ {l r : List α}, l.Sublist r →
    l.dropLast.Sublist r.dropLast := by
  intro l r h
  induction h with
  | slnil => simp
  | cons a h ih =>
    rename_i l' r'
    rcases r' with _ | ⟨b, r''⟩
    · simp at h ⊢
      simp [h]
    · simp only [List.dropLast_cons₂]
      exact ih.trans (List.sublist_cons_self a _)
  | cons₂ a h ih =>
    rename_i l' r'
    rcases l' with _ | ⟨c, l''⟩
    · simp
    · rcases r' with _ | ⟨b, r''⟩
      · simp at h
      · simp only [List.dropLast_cons₂]
        exact ih.cons₂ a

theorem headI_append {α : Type} [Inhabited α] {l : List α} (r : List α) (h : l ≠ []) :
    (l ++ r).headI = l.headI := by
  cases l with
  | nil => exact absurd rfl h
  | cons a t => simp

theorem getLastI_append {α : Type} [Inhabited α] (l : List α) {r : List α} (h : r ≠ []) :
    (l ++ r).getLastI = r.getLastI := by
  rw [List.getLastI_eq_getLast?, List.getLastI_eq_getLast?, List.getLast?_append_of_ne_nil l h]

theorem getLastI_cons {α : Type} [Inhabited α] (a : α) {t : List α} (h : t ≠ []) :
    (a :: t).getLastI = t.getLastI :=
  getLastI_append [a] h

theorem headI_take {α : Type} [Inhabited α] (l : List α) (n : ℕ) (hn : 1 ≤ n) :
    (l.take n).headI = l.headI := by
  cases l with
  | nil => simp
  | cons a t =>
    cases n with
    | zero => omega
    | succ m => simp [List.take]

theorem getLastI_drop {α : Type} [Inhabited α] (l : List α) (n : ℕ) (h : n < l.length) :
    (l.drop n).getLastI = l.getLastI := by
  have hne : l.drop n ≠ [] := by
    intro hc
    have := congrArg List.length hc
    simp at this
    omega
  conv_rhs => rw [← List.take_append_drop n l]
  rw [getLastI_append _ hne]

theorem headI_dropLast {α : Type} [Inhabited α] (l : List α) (h : 2 ≤ l.length) :
    l.dropLast.headI = l.headI := by
  match l, h with
  | a :: b :: t, _ => simp

theorem headI_mem {α : Type} [Inhabited α] {l : List α} (h : l ≠ []) : l.headI ∈ l := by
  cases l with
  | nil => exact absurd rfl h
  | cons a t => simp

theorem getLastI_mem {α : Type} [Inhabited α] {l : List α} (h : l ≠ []) : l.getLastI ∈ l := by
  rw [List.getLastI_eq_getLast?, List.getLast?_eq_getLast l h]
  exact List.getLast_mem h

theorem getD_mem {α : Type} {l : List α} {i : ℕ} (d : α) (h : i < l.length) :
    l.getD i d ∈ l := by
  rw [List.getD_eq_getElem l d h]
  exact List.getElem_mem h

/-! ### Facts about the two haversine implementations -/

namespace Optimizer

theorem haversine_distance_def (lat1 lon1 lat2 lon2 : ℝ) :
    haversine_distance lat1 lon1 lat2 lon2 =
      6371000 * (2 * atan2
        (Real.sqrt (Real.sin (radians (lat2 - lat1) / 2) ^ 2 +
          Real.cos (radians lat1) * Real.cos (radians lat2) *
            Real.sin (radians (lon2 - lon1) / 2) ^ 2))
        (Real.sqrt (1 - (Real.sin (radians (lat2 - lat1) / 2) ^ 2 +
          Real.cos (radians lat1) * Real.cos (radians lat2) *
            Real.sin (radians (lon2 - lon1) / 2) ^ 2)))) := rfl

theorem haversine_nonneg (lat1 lon1 lat2 lon2 : ℝ) :
    0 ≤ haversine_distance lat1 lon1 lat2 lon2 := by
  rw [haversine_distance_def]
  have h := atan2_nonneg (Real.sqrt_nonneg (Real.sin (radians (lat2 - lat1) / 2) ^ 2 +
      Real.cos (radians lat1) * Real.cos (radians lat2) *
        Real.sin (radians (lon2 - lon1) / 2) ^ 2))
    (Real.sqrt_nonneg (1 - (Real.sin (radians (lat2 - lat1) / 2) ^ 2 +
      Real.cos (radians lat1) * Real.cos (radians lat2) *
        Real.sin (radians (lon2 - lon1) / 2) ^ 2)))
  positivity

theorem haversine_self (lat lon : ℝ) : haversine_distance lat lon lat lon = 0 := by
  rw [haversine_distance_def]
  have hz : radians (lat - lat) = 0 := by simp [radians]
  have hz2 : radians (lon - lon) = 0 := by simp [radians]
  rw [hz, hz2]
  simp [atan2_zero_one]

theorem haversine_symm (lat1 lon1 lat2 lon2 : ℝ) :
    haversine_distance lat1 lon1 lat2 lon2 = haversine_distance lat2 lon2 lat1 lon1 := by
  have e2 : ∀ u v : ℝ, Real.sin (radians (u - v) / 2) ^ 2 =
      Real.sin (radians (v - u) / 2) ^ 2 := by
    intro u v
    have e1 : radians (u - v) / 2 = -(radians (v - u) / 2) := by
      unfold radians
      ring
    rw [e1, Real.sin_neg]
    ring
  rw [haversine_distance_def, haversine_distance_def, e2 lat2 lat1, e2 lon2 lon1,
    mul_comm (Real.cos (radians lat1)) (Real.cos (radians lat2))]

/-- Closed form of the optimizer haversine along a meridian: for
`0 ≤ lat2 - lat1 < 180` and equal longitudes, the distance is the Earth
radius times the latitude difference in radians. -/
theorem haversine_meridian (lat1 lat2 lng : ℝ) (h0 : 0 ≤ lat2 - lat1)
    (h1 : lat2 - lat1 < 180) :
    haversine_distance lat1 lng lat2 lng = 6371000 * radians (lat2 - lat1) := by
  have hpi := Real.pi_pos
  set t := radians (lat2 - lat1) / 2 with ht
  have ht' : t = (lat2 - lat1) * (Real.pi / 360) := by
    rw [ht]
    unfold radians
    ring
  have ht0 : 0 ≤ t := by
    rw [ht']
    positivity
  have ht2 : t < Real.pi / 2 := by
    rw [ht']
    calc (lat2 - lat1) * (Real.pi / 360) < 180 * (Real.pi / 360) := by
          apply mul_lt_mul_of_pos_right h1
          positivity
    _ = Real.pi / 2 := by ring
  have hsin : 0 ≤ Real.sin t :=
    Real.sin_nonneg_of_nonneg_of_le_pi ht0 (by linarith)
  have hcos : 0 < Real.cos t :=
    Real.cos_pos_of_mem_Ioo ⟨by linarith, ht2⟩
  rw [haversine_distance_def]
  have hz2 : radians (lng - lng) = 0 := by simp [radians]
  rw [hz2, ← ht]
  have ha : Real.sin t ^ 2 + Real.cos (radians lat1) * Real.cos (radians lat2) *
      Real.sin (0 / 2) ^ 2 = Real.sin t ^ 2 := by
    simp
  rw [ha]
  have hs1 : Real.sqrt (Real.sin t ^ 2) = Real.sin t := Real.sqrt_sq hsin
  have hc2 : 1 - Real.sin t ^ 2 = Real.cos t ^ 2 := by
    have := Real.sin_sq_add_cos_sq t
    linarith
  have hs2 : Real.sqrt (1 - Real.sin t ^ 2) = Real.cos t := by
    rw [hc2]
    exact Real.sqrt_sq (le_of_lt hcos)
  rw [hs1, hs2]
  have hat : atan2 (Real.sin t) (Real.cos t) = t := by
    unfold atan2
    rw [if_pos hcos, ← Real.tan_eq_sin_div_cos, Real.arctan_tan (by linarith) ht2]
  rw [hat, ht]
  ring

end Optimizer

namespace Processor

theorem proc_haversine_distance_def (lat1 lon1 lat2 lon2 : ℝ) :
    haversine_distance lat1 lon1 lat2 lon2 =
      6371000 * (2 * Real.arcsin
        (Real.sqrt (Real.sin ((radians lat2 - radians lat1) / 2) ^ 2 +
          Real.cos (radians lat1) * Real.cos (radians lat2) *
            Real.sin ((radians lon2 - radians lon1) / 2) ^ 2))) := rfl

theorem proc_haversine_nonneg (lat1 lon1 lat2 lon2 : ℝ) :
    0 ≤ haversine_distance lat1 lon1 lat2 lon2 := by
  rw [proc_haversine_distance_def]
  have h : 0 ≤ Real.arcsin (Real.sqrt (Real.sin ((radians lat2 - radians lat1) / 2) ^ 2 +
      Real.cos (radians lat1) * Real.cos (radians lat2) *
        Real.sin ((radians lon2 - radians lon1) / 2) ^ 2)) :=
    Real.arcsin_nonneg.mpr (Real.sqrt_nonneg _)
  positivity

theorem proc_haversine_self (lat lon : ℝ) : haversine_distance lat lon lat lon = 0 := by
  rw [proc_haversine_distance_def]
  simp

theorem proc_haversine_symm (lat1 lon1 lat2 lon2 : ℝ) :
    haversine_distance lat1 lon1 lat2 lon2 = haversine_distance lat2 lon2 lat1 lon1 := by
  have e2 : ∀ u v : ℝ, Real.sin ((radians u - radians v) / 2) ^ 2 =
      Real.sin ((radians v - radians u) / 2) ^ 2 := by
    intro u v
    have e1 : (radians u - radians v) / 2 = -((radians v - radians u) / 2) := by ring
    rw [e1, Real.sin_neg]
    ring
  rw [proc_haversine_distance_def, proc_haversine_distance_def, e2 lat2 lat1, e2 lon2 lon1,
    mul_comm (Real.cos (radians lat1)) (Real.cos (radians lat2))]

end Processor

/-! ### Bearing and perpendicular-distance facts -/

namespace Optimizer

theorem calculate_bearing_def (p1 p2 : WorkingPoint) :
    calculate_bearing p1 p2 =
      degrees (atan2
        (Real.sin (radians (p2.longitude - p1.longitude)) * Real.cos (radians p2.latitude))
        (Real.cos (radians p1.latitude) * Real.sin (radians p2.latitude) -
          Real.sin (radians p1.latitude) * Real.cos (radians p2.latitude) *
            Real.cos (radians (p2.longitude - p1.longitude)))) := rfl

/-- The bearing from one point to another directly north of it on the same
meridian is 0 degrees. -/
theorem calculate_bearing_meridian (p q : WorkingPoint) (hlng : q.longitude = p.longitude)
    (h0 : 0 < q.latitude - p.latitude) (h1 : q.latitude - p.latitude < 180) :
    calculate_bearing p q = 0 := by
  have hpi := Real.pi_pos
  rw [calculate_bearing_def]
  have hz : radians (q.longitude - p.longitude) = 0 := by
    rw [hlng]
    simp [radians]
  rw [hz]
  have hx : Real.cos (radians p.latitude) * Real.sin (radians q.latitude) -
      Real.sin (radians p.latitude) * Real.cos (radians q.latitude) * Real.cos 0 =
      Real.sin (radians q.latitude - radians p.latitude) := by
    rw [Real.cos_zero, Real.sin_sub]
    ring
  have hd : radians q.latitude - radians p.latitude = radians (q.latitude - p.latitude) := by
    unfold radians
    ring
  have harg : radians (q.latitude - p.latitude) = (q.latitude - p.latitude) * (Real.pi / 180)
      := by
    unfold radians
    ring
  have hxpos : 0 < Real.sin (radians q.latitude - radians p.latitude) := by
    rw [hd]
    apply Real.sin_pos_of_pos_of_lt_pi
    · rw [harg]
      positivity
    · rw [harg]
      calc (q.latitude - p.latitude) * (Real.pi / 180) < 180 * (Real.pi / 180) := by
            apply mul_lt_mul_of_pos_right h1
            positivity
      _ = Real.pi := by ring
  rw [Real.sin_zero, zero_mul, hx]
  unfold atan2
  rw [if_pos hxpos, zero_div, Real.arctan_zero]
  unfold degrees
  simp

theorem perpendicular_distance_def (point line_start line_end : WorkingPoint) :
    perpendicular_distance point line_start line_end =
      if Real.sqrt ((line_end.latitude - line_start.latitude) ^ 2 +
          (line_end.longitude - line_start.longitude) ^ 2) = 0 then 0
      else |(line_end.latitude - line_start.latitude) * point.longitude -
          (line_end.longitude - line_start.longitude) * point.latitude +
          line_end.longitude * line_start.latitude -
          line_end.latitude * line_start.longitude| /
        Real.sqrt ((line_end.latitude - line_start.latitude) ^ 2 +
          (line_end.longitude - line_start.longitude) ^ 2) * 111000 := rfl

/-- All three points on one meridian (equal longitudes): the planar
perpendicular distance is 0. -/
theorem perpendicular_distance_same_longitude (p s e : WorkingPoint)
    (hp : p.longitude = s.longitude) (he : e.longitude = s.longitude) :
    perpendicular_distance p s e = 0 := by
  rw [perpendicular_distance_def, hp, he]
  have hnum : |(e.latitude - s.latitude) * s.longitude -
      (s.longitude - s.longitude) * p.latitude +
      s.longitude * s.latitude - e.latitude * s.longitude| = 0 := by
    rw [abs_eq_zero]
    ring
  split_ifs with h
  · rfl
  · rw [hnum]
    simp

/-- Zero-length chord (`line_start` and `line_end` share coordinates): the
perpendicular distance is 0 for every point. -/
theorem perpendicular_distance_degenerate (p s e : WorkingPoint)
    (hlat : s.latitude = e.latitude) (hlng : s.longitude = e.longitude) :
    perpendicular_distance p s e = 0 := by
  rw [perpendicular_distance_def, ← hlat, ← hlng]
  have : (s.latitude - s.latitude) ^ 2 + (s.longitude - s.longitude) ^ 2 = 0 := by ring
  rw [if_pos (by rw [this, Real.sqrt_zero])]

/-! ### The max-distance scan and Douglas-Peucker structure -/

theorem find_max_eq_zero (points : List WorkingPoint)
    (h : ∀ i, 1 ≤ i → i + 1 < points.length →
      perpendicular_distance (points.getD i default) points.headI points.getLastI = 0) :
    find_max points = (0, 0) := by
  unfold find_max
  have key : ∀ l : List ℕ, (∀ i ∈ l, perpendicular_distance (points.getD i default)
      points.headI points.getLastI = 0) →
      l.foldl (fun acc i =>
        let distance := perpendicular_distance (points.getD i default)
          points.headI points.getLastI
        if acc.1 < distance then (distance, i) else acc) ((0 : ℝ), (0 : ℕ)) = (0, 0) := by
    intro l
    induction l with
    | nil => intro _; rfl
    | cons a t ih =>
      intro hl
      have ha := hl a (List.mem_cons_self a t)
      simp only [List.foldl_cons, ha, lt_irrefl, if_neg]
      exact ih (fun i hi => hl i (List.mem_cons_of_mem a hi))
  apply key
  intro i hi
  rw [List.mem_range'_1] at hi
  exact h i hi.1 (by omega)

theorem douglas_peucker_props (points : List WorkingPoint) (tol : ℝ) :
    2 ≤ points.length →
      2 ≤ (douglas_peucker points tol).length ∧
      (douglas_peucker points tol).Sublist points ∧
      (douglas_peucker points tol).headI = points.headI ∧
      (douglas_peucker points tol).getLastI = points.getLastI := by
  induction points, tol using douglas_peucker.induct with
  | case1 points tol h =>
    intro h2
    rw [douglas_peucker, if_pos h]
    exact ⟨h2, List.Sublist.refl points, rfl, rfl⟩
  | case2 points tol h3 hg ih1 ih2 =>
    intro _
    rw [douglas_peucker, if_neg h3, dif_pos hg]
    obtain ⟨hgd, hk1, hk2⟩ := hg
    have hlen : ¬ points.length < 3 := h3
    have htake_len : (points.take ((find_max points).2 + 1)).length =
        (find_max points).2 + 1 := by
      rw [List.length_take]
      omega
    have hdrop_len : (points.drop (find_max points).2).length =
        points.length - (find_max points).2 := List.length_drop _ _
    have hL := ih1 (by omega)
    have hR := ih2 (by omega)
    obtain ⟨hL2, hLsub, hLhead, hLlast⟩ := hL
    obtain ⟨hR2, hRsub, hRhead, hRlast⟩ := hR
    have hRne : douglas_peucker (points.drop (find_max points).2) tol ≠ [] := by
      intro hc
      rw [hc] at hR2
      simp at hR2
    have hDLne : (douglas_peucker (points.take ((find_max points).2 + 1)) tol).dropLast ≠ [] := by
      intro hc
      have := congrArg List.length hc
      rw [List.length_dropLast] at this
      simp at this
      omega
    refine ⟨?_, ?_, ?_, ?_⟩
    · rw [List.length_append, List.length_dropLast]
      omega
    · have hsub1 : (douglas_peucker (points.take ((find_max points).2 + 1)) tol).dropLast.Sublist
          (points.take (find_max points).2) := by
        have := sublist_dropLast hLsub
        rwa [List.dropLast_take (by omega), Nat.add_sub_cancel] at this
      have hsub2 : (douglas_peucker (points.drop (find_max points).2) tol).Sublist
          (points.drop (find_max points).2) := hRsub
      have := List.Sublist.append hsub1 hsub2
      rwa [List.take_append_drop] at this
    · rw [headI_append _ hDLne, headI_dropLast _ hL2, hLhead, headI_take _ _ (by omega)]
    · rw [getLastI_append _ hRne, hRlast, getLastI_drop _ _ (by omega)]
  | case3 points tol h3 hg =>
    intro _
    rw [douglas_peucker, if_neg h3, dif_neg hg]
    have hlen : 3 ≤ points.length := by omega
    cases points with
    | nil => simp at hlen
    | cons a t =>
      have htne : t ≠ [] := by
        intro hc
        rw [hc] at hlen
        simp at hlen
      have hlast : (a :: t).getLastI = t.getLastI := getLastI_append [a] htne
      refine ⟨by simp, ?_, rfl, by rw [hlast]; simp [List.getLastI]⟩
      rw [List.headI, hlast]
      exact List.Sublist.cons₂ a (List.singleton_sublist.mpr (getLastI_mem htne))

theorem douglas_peucker_ne_nil (points : List WorkingPoint) (tol : ℝ)
    (h : 2 ≤ points.length) : douglas_peucker points tol ≠ [] := by
  intro hc
  have := (douglas_peucker_props points tol h).1
  rw [hc] at this
  simp at this

/-- When every interior point has perpendicular distance 0 from the chord
(and the tolerance is nonnegative), Douglas-Peucker collapses the interval
to its two endpoints. -/
theorem douglas_peucker_all_zero (points : List WorkingPoint) (tol : ℝ)
    (h2 : 2 ≤ points.length) (htol : 0 ≤ tol)
    (hz : ∀ i, 1 ≤ i → i + 1 < points.length →
      perpendicular_distance (points.getD i default) points.headI points.getLastI = 0) :
    douglas_peucker points tol = [points.headI, points.getLastI] := by
  rw [douglas_peucker]
  by_cases h3 : points.length < 3
  · rw [if_pos h3]
    match points, h2, h3 with
    | [a, b], _, _ => rfl
  · rw [if_neg h3]
    have hfm : find_max points = (0, 0) := find_max_eq_zero points hz
    rw [dif_neg]
    rw [hfm]
    intro hc
    exact absurd hc.1 (not_lt.mpr htol)

/-- Douglas-Peucker on a set of points sharing one longitude collapses to
the two endpoints. -/
theorem douglas_peucker_same_longitude (points : List WorkingPoint) (tol : ℝ) (L : ℝ)
    (h2 : 2 ≤ points.length) (htol : 0 ≤ tol)
    (hlng : ∀ q ∈ points, q.longitude = L) :
    douglas_peucker points tol = [points.headI, points.getLastI] := by
  apply douglas_peucker_all_zero points tol h2 htol
  intro i h1 hi
  have hne : points ≠ [] := by
    intro hc
    rw [hc] at h2
    simp at h2
  apply perpendicular_distance_same_longitude
  · rw [hlng _ (getD_mem default (by omega)), hlng _ (headI_mem hne)]
  · rw [hlng _ (getLastI_mem hne), hlng _ (headI_mem hne)]

/-! ### Structure of `_add_distance_data` -/

theorem add_distance_data_aux_length (prev : RawPoint) (total : ℝ) (i : ℕ)
    (l : List RawPoint) : (add_distance_data_aux prev total i l).length = l.length := by
  induction l generalizing prev total i with
  | nil => rfl
  | cons p rest ih => simp [add_distance_data_aux, ih]

theorem add_distance_data_length (pts : List RawPoint) :
    (add_distance_data pts).length = pts.length := by
  cases pts with
  | nil => rfl
  | cons p rest => simp [add_distance_data, add_distance_data_aux_length]

theorem add_distance_data_aux_getElem (l : List RawPoint) :
    ∀ (prev : RawPoint) (total : ℝ) (i j : ℕ) (h : j < l.length),
      ((add_distance_data_aux prev total i l).getD j default).latitude = l[j].latitude ∧
      ((add_distance_data_aux prev total i l).getD j default).longitude = l[j].longitude ∧
      ((add_distance_data_aux prev total i l).getD j default).elevation = l[j].elevation ∧
      ((add_distance_data_aux prev total i l).getD j default).index = i + j := by
  induction l with
  | nil => intro prev total i j h; simp at h
  | cons p rest ih =>
    intro prev total i j h
    cases j with
    | zero => simp [add_distance_data_aux]
    | succ k =>
      have hk : k < rest.length := by simpa using h
      have := ih p (total + haversine_distance prev.latitude prev.longitude
        p.latitude p.longitude) (i + 1) k hk
      simp only [add_distance_data_aux, List.getD_cons_succ, List.getElem_cons_succ]
      refine ⟨this.1, this.2.1, this.2.2.1, ?_⟩
      rw [this.2.2.2]
      omega

theorem add_distance_data_getElem (pts : List RawPoint) (j : ℕ) (h : j < pts.length) :
    ((add_distance_data pts).getD j default).latitude = pts[j].latitude ∧
    ((add_distance_data pts).getD j default).longitude = pts[j].longitude ∧
    ((add_distance_data pts).getD j default).elevation = pts[j].elevation ∧
    ((add_distance_data pts).getD j default).index = j := by
  cases pts with
  | nil => simp at h
  | cons p rest =>
    cases j with
    | zero => simp [add_distance_data]
    | succ k =>
      have hk : k < rest.length := by simpa using h
      have := add_distance_data_aux_getElem rest p 0 1 k hk
      simp only [add_distance_data, List.getD_cons_succ, List.getElem_cons_succ]
      refine ⟨this.1, this.2.1, this.2.2.1, ?_⟩
      rw [this.2.2.2]
      omega

theorem add_distance_data_aux_dist_ge (l : List RawPoint) :
    ∀ (prev : RawPoint) (total : ℝ) (i : ℕ) (q : WorkingPoint),
      q ∈ add_distance_data_aux prev total i l → total ≤ q.distance_from_start := by
  induction l with
  | nil => intro prev total i q hq; simp [add_distance_data_aux] at hq
  | cons p rest ih =>
    intro prev total i q hq
    have hh : 0 ≤ haversine_distance prev.latitude prev.longitude p.latitude p.longitude :=
      haversine_nonneg _ _ _ _
    simp only [add_distance_data_aux, List.mem_cons] at hq
    rcases hq with hq | hq
    · rw [hq]
      simp only
      linarith
    · have := ih p (total + haversine_distance prev.latitude prev.longitude
        p.latitude p.longitude) (i + 1) q hq
      linarith

theorem add_distance_data_aux_pairwise (l : List RawPoint) :
    ∀ (prev : RawPoint) (total : ℝ) (i : ℕ),
      (add_distance_data_aux prev total i l).Pairwise
        (fun a b => a.distance_from_start ≤ b.distance_from_start) := by
  induction l with
  | nil => intro prev total i; simp [add_distance_data_aux]
  | cons p rest ih =>
    intro prev total i
    simp only [add_distance_data_aux]
    refine List.Pairwise.cons ?_ (ih p _ (i + 1))
    intro q hq
    exact add_distance_data_aux_dist_ge rest p _ (i + 1) q hq

theorem add_distance_data_pairwise (pts : List RawPoint) :
    (add_distance_data pts).Pairwise
      (fun a b => a.distance_from_start ≤ b.distance_from_start) := by
  cases pts with
  | nil => simp [add_distance_data]
  | cons p rest =>
    simp only [add_distance_data]
    refine List.Pairwise.cons ?_ (add_distance_data_aux_pairwise rest p 0 1)
    intro q hq
    exact add_distance_data_aux_dist_ge rest p 0 1 q hq

theorem add_distance_data_dist_nonneg (pts : List RawPoint) (q : WorkingPoint)
    (hq : q ∈ add_distance_data pts) : 0 ≤ q.distance_from_start := by
  cases pts with
  | nil => simp [add_distance_data] at hq
  | cons p rest =>
    simp only [add_distance_data, List.mem_cons] at hq
    rcases hq with hq | hq
    · rw [hq]
    · exact add_distance_data_aux_dist_ge rest p 0 1 q hq

theorem add_distance_data_aux_index_ge (l : List RawPoint) :
    ∀ (prev : RawPoint) (total : ℝ) (i : ℕ) (q : WorkingPoint),
      q ∈ add_distance_data_aux prev total i l → i ≤ q.index := by
  induction l with
  | nil => intro prev total i q hq; simp [add_distance_data_aux] at hq
  | cons p rest ih =>
    intro prev total i q hq
    simp only [add_distance_data_aux, List.mem_cons] at hq
    rcases hq with hq | hq
    · rw [hq]
    · have := ih p _ (i + 1) q hq
      omega

theorem add_distance_data_aux_pairwise_index (l : List RawPoint) :
    ∀ (prev : RawPoint) (total : ℝ) (i : ℕ),
      (add_distance_data_aux prev total i l).Pairwise (fun a b => a.index < b.index) := by
  induction l with
  | nil => intro prev total i; simp [add_distance_data_aux]
  | cons p rest ih =>
    intro prev total i
    simp only [add_distance_data_aux]
    refine List.Pairwise.cons ?_ (ih p _ (i + 1))
    intro q hq
    have := add_distance_data_aux_index_ge rest p _ (i + 1) q hq
    simp only
    omega

theorem add_distance_data_pairwise_index (pts : List RawPoint) :
    (add_distance_data pts).Pairwise (fun a b => a.index < b.index) := by
  cases pts with
  | nil => simp [add_distance_data]
  | cons p rest =>
    simp only [add_distance_data]
    refine List.Pairwise.cons ?_ (add_distance_data_aux_pairwise_index rest p 0 1)
    intro q hq
    have := add_distance_data_aux_index_ge rest p 0 1 q hq
    simp only
    omega

theorem add_distance_data_nodup (pts : List RawPoint) :
    (add_distance_data pts).Nodup := by
  have h := add_distance_data_pairwise_index pts
  refine List.Pairwise.imp ?_ h
  intro a b hab
  intro hc
  rw [hc] at hab
  exact lt_irrefl _ hab

theorem add_distance_data_aux_mem (l : List RawPoint) :
    ∀ (prev : RawPoint) (total : ℝ) (i : ℕ) (q : WorkingPoint),
      q ∈ add_distance_data_aux prev total i l →
      ∃ p ∈ l, q.latitude = p.latitude ∧ q.longitude = p.longitude ∧
        q.elevation = p.elevation := by
  induction l with
  | nil => intro prev total i q hq; simp [add_distance_data_aux] at hq
  | cons p rest ih =>
    intro prev total i q hq
    simp only [add_distance_data_aux, List.mem_cons] at hq
    rcases hq with hq | hq
    · exact ⟨p, List.mem_cons_self p rest, by rw [hq], by rw [hq], by rw [hq]⟩
    · obtain ⟨r, hr, hfields⟩ := ih p _ (i + 1) q hq
      exact ⟨r, List.mem_cons_of_mem p hr, hfields⟩

theorem add_distance_data_mem (pts : List RawPoint) (q : WorkingPoint)
    (hq : q ∈ add_distance_data pts) :
    ∃ p ∈ pts, q.latitude = p.latitude ∧ q.longitude = p.longitude ∧
      q.elevation = p.elevation := by
  cases pts with
  | nil => simp [add_distance_data] at hq
  | cons p rest =>
    simp only [add_distance_data, List.mem_cons] at hq
    rcases hq with hq | hq
    · exact ⟨p, List.mem_cons_self p rest, by rw [hq], by rw [hq], by rw [hq]⟩
    · obtain ⟨r, hr, hfields⟩ := add_distance_data_aux_mem rest p 0 1 q hq
      exact ⟨r, List.mem_cons_of_mem p hr, hfields⟩

theorem add_distance_data_mem_dist_le_last (pts : List RawPoint) (q : WorkingPoint)
    (hq : q ∈ add_distance_data pts) :
    q.distance_from_start ≤ (add_distance_data pts).getLastI.distance_from_start := by
  have hne : add_distance_data pts ≠ [] := by
    intro hc
    rw [hc] at hq
    simp at hq
  have hp := add_distance_data_pairwise pts
  obtain ⟨l', hl'⟩ : ∃ l', add_distance_data pts = l' ++ [(add_distance_data pts).getLastI] := by
    refine ⟨(add_distance_data pts).dropLast, ?_⟩
    rw [List.getLastI_eq_getLast?, List.getLast?_eq_getLast _ hne]
    exact (List.dropLast_append_getLast hne).symm
  rw [hl'] at hq hp
  rcases List.mem_append.mp hq with hq' | hq'
  · have := List.pairwise_append.mp hp
    exact this.2.2 q hq' _ (List.mem_singleton_self _)
  · rw [List.mem_singleton.mp hq']

theorem add_distance_data_headI_dist (pts : List RawPoint) (h : pts ≠ []) :
    (add_distance_data pts).headI.distance_from_start = 0 := by
  cases pts with
  | nil => exact absurd rfl h
  | cons p rest => simp [add_distance_data]

/-! ### Structure of `_remove_redundant_points` -/

theorem remove_redundant_points_aux_sublist (self : GPXOptimizer) :
    ∀ (l : List WorkingPoint) (prev : WorkingPoint),
      (remove_redundant_points_aux self prev l).Sublist l := by
  intro l
  induction l with
  | nil => intro prev; simp [remove_redundant_points_aux]
  | cons curr rest ih =>
    intro prev
    cases rest with
    | nil => simp [remove_redundant_points_aux]
    | cons next rest2 =>
      rw [remove_redundant_points_aux]
      split_ifs with hk
      · exact (ih curr).cons₂ curr
      · exact (ih prev).cons curr

theorem remove_redundant_points_aux_ne_nil (self : GPXOptimizer) :
    ∀ (l : List WorkingPoint) (prev : WorkingPoint), l ≠ [] →
      remove_redundant_points_aux self prev l ≠ [] := by
  intro l
  induction l with
  | nil => intro prev h; exact absurd rfl h
  | cons curr rest ih =>
    intro prev _
    cases rest with
    | nil => simp [remove_redundant_points_aux]
    | cons next rest2 =>
      rw [remove_redundant_points_aux]
      split_ifs with hk
      · simp
      · exact ih prev (by simp)

theorem remove_redundant_points_aux_getLastI (self : GPXOptimizer) :
    ∀ (l : List WorkingPoint) (prev : WorkingPoint), l ≠ [] →
      (remove_redundant_points_aux self prev l).getLastI = l.getLastI := by
  intro l
  induction l with
  | nil => intro prev h; exact absurd rfl h
  | cons curr rest ih =>
    intro prev _
    cases rest with
    | nil => simp [remove_redundant_points_aux]
    | cons next rest2 =>
      rw [remove_redundant_points_aux]
      split_ifs with hk
      · have hne := remove_redundant_points_aux_ne_nil self (next :: rest2) curr (by simp)
        calc (curr :: remove_redundant_points_aux self curr (next :: rest2)).getLastI
            = (remove_redundant_points_aux self curr (next :: rest2)).getLastI :=
              getLastI_append [curr] hne
        _ = (next :: rest2).getLastI := ih curr (by simp)
        _ = (curr :: next :: rest2).getLastI := (getLastI_append [curr] (by simp)).symm
      · calc (remove_redundant_points_aux self prev (next :: rest2)).getLastI
            = (next :: rest2).getLastI := ih prev (by simp)
        _ = (curr :: next :: rest2).getLastI := (getLastI_append [curr] (by simp)).symm

theorem remove_redundant_points_sublist (self : GPXOptimizer) (points : List WorkingPoint) :
    (remove_redundant_points self points).Sublist points := by
  unfold remove_redundant_points
  split_ifs with h
  · exact List.Sublist.refl points
  · cases points with
    | nil => simp
    | cons p rest => exact (remove_redundant_points_aux_sublist self rest p).cons₂ p

theorem remove_redundant_points_headI (self : GPXOptimizer) (points : List WorkingPoint) :
    (remove_redundant_points self points).headI = points.headI := by
  unfold remove_redundant_points
  split_ifs with h
  · rfl
  · cases points with
    | nil => simp
    | cons p rest => rfl

theorem remove_redundant_points_getLastI (self : GPXOptimizer) (points : List WorkingPoint) :
    (remove_redundant_points self points).getLastI = points.getLastI := by
  unfold remove_redundant_points
  split_ifs with h
  · rfl
  · cases points with
    | nil => simp
    | cons p rest =>
      by_cases hrest : rest = []
      · subst hrest
        simp at h
      · have hne := remove_redundant_points_aux_ne_nil self rest p hrest
        calc (p :: remove_redundant_points_aux self p rest).getLastI
            = (remove_redundant_points_aux self p rest).getLastI := getLastI_append [p] hne
        _ = rest.getLastI := remove_redundant_points_aux_getLastI self rest p hrest
        _ = (p :: rest).getLastI := (getLastI_append [p] hrest).symm

theorem remove_redundant_points_length_ge (self : GPXOptimizer) (points : List WorkingPoint)
    (h : 2 ≤ points.length) : 2 ≤ (remove_redundant_points self points).length := by
  unfold remove_redundant_points
  split_ifs with hlt
  · exact h
  · cases points with
    | nil => simp at h
    | cons p rest =>
      have hrest : rest ≠ [] := by
        intro hc
        rw [hc] at h
        simp at h
      have hne := remove_redundant_points_aux_ne_nil self rest p hrest
      have : 1 ≤ (remove_redundant_points_aux self p rest).length :=
        List.length_pos.mpr hne
      simp only [List.length_cons]
      omega

/-! ### The stable sort by `distance_from_start` -/

theorem sort_insert_perm (x : WorkingPoint) (l : List WorkingPoint) :
    (sort_insert x l).Perm (x :: l) := by
  induction l with
  | nil => simp [sort_insert]
  | cons y ys ih =>
    rw [sort_insert]
    split_ifs with h
    · exact List.Perm.refl _
    · exact (ih.cons y).trans (List.Perm.swap x y ys)

theorem sort_by_distance_perm (l : List WorkingPoint) :
    (sort_by_distance l).Perm l := by
  induction l with
  | nil => simp [sort_by_distance]
  | cons x xs ih =>
    rw [sort_by_distance]
    exact (sort_insert_perm x (sort_by_distance xs)).trans (List.Perm.cons x ih)

theorem sort_insert_pairwise (x : WorkingPoint) (l : List WorkingPoint)
    (h : l.Pairwise (fun a b => a.distance_from_start ≤ b.distance_from_start)) :
    (sort_insert x l).Pairwise (fun a b => a.distance_from_start ≤ b.distance_from_start) := by
  induction l with
  | nil => simp [sort_insert]
  | cons y ys ih =>
    rw [sort_insert]
    have hy := List.pairwise_cons.mp h
    split_ifs with hle
    · refine List.Pairwise.cons ?_ h
      intro q hq
      rcases List.mem_cons.mp hq with hq | hq
      · rw [hq]
        exact hle
      · exact le_trans hle (hy.1 q hq)
    · refine List.Pairwise.cons ?_ (ih hy.2)
      intro q hq
      have hq' : q ∈ x :: ys := (sort_insert_perm x ys).mem_iff.mp hq
      rcases List.mem_cons.mp hq' with hq' | hq'
      · rw [hq']
        exact le_of_not_le hle
      · exact hy.1 q hq'

theorem sort_by_distance_pairwise (l : List WorkingPoint) :
    (sort_by_distance l).Pairwise
      (fun a b => a.distance_from_start ≤ b.distance_from_start) := by
  induction l with
  | nil => simp [sort_by_distance]
  | cons x xs ih => exact sort_insert_pairwise x _ ih

/-- If the first element has minimal key, the stable sort keeps it first. -/
theorem sort_by_distance_cons_min (x : WorkingPoint) (xs : List WorkingPoint)
    (h : ∀ q ∈ xs, x.distance_from_start ≤ q.distance_from_start) :
    sort_by_distance (x :: xs) = x :: sort_by_distance xs := by
  rw [sort_by_distance]
  cases hs : sort_by_distance xs with
  | nil => rfl
  | cons y ys =>
    have hy : y ∈ xs := by
      have : y ∈ sort_by_distance xs := by
        rw [hs]
        simp
      exact (sort_by_distance_perm xs).mem_iff.mp this
    rw [sort_insert, if_pos (h y hy)]

/-! ### The 5 m minimum-separation pass -/

theorem merge_aux_sublist : ∀ (l : List WorkingPoint) (last : WorkingPoint),
    (merge_aux last l).Sublist l := by
  intro l
  induction l with
  | nil => intro last; simp [merge_aux]
  | cons p rest ih =>
    intro last
    rw [merge_aux]
    split_ifs with hk
    · exact (ih p).cons₂ p
    · exact (ih last).cons p

theorem pairwise_dist_le_getLastI (l : List WorkingPoint)
    (hp : l.Pairwise (fun a b => a.distance_from_start ≤ b.distance_from_start))
    (q : WorkingPoint) (hq : q ∈ l) :
    q.distance_from_start ≤ l.getLastI.distance_from_start := by
  have hne : l ≠ [] := by
    intro hc
    rw [hc] at hq
    simp at hq
  obtain ⟨l', hl'⟩ : ∃ l', l = l' ++ [l.getLastI] := by
    refine ⟨l.dropLast, ?_⟩
    rw [List.getLastI_eq_getLast?, List.getLast?_eq_getLast _ hne]
    exact (List.dropLast_append_getLast hne).symm
  rw [hl'] at hq hp
  rcases List.mem_append.mp hq with hq' | hq'
  · have := List.pairwise_append.mp hp
    exact this.2.2 q hq' _ (List.mem_singleton_self _)
  · rw [List.mem_singleton.mp hq']

theorem headI_eq_getD {α : Type} [Inhabited α] (l : List α) (h : l ≠ []) :
    l.getD 0 default = l.headI := by
  cases l with
  | nil => exact absurd rfl h
  | cons a t => rfl

/-! ### Structure of `_preserve_elevation_features` -/

theorem preserve_elevation_features_eq (o s : List WorkingPoint) :
    preserve_elevation_features o s =
      match sort_by_distance (s ++ elevation_features o) with
      | [] => []
      | p :: rest => p :: merge_aux p rest := rfl

theorem preserve_elevation_features_sublist_sorted (o s : List WorkingPoint) :
    (preserve_elevation_features o s).Sublist
      (sort_by_distance (s ++ elevation_features o)) := by
  rw [preserve_elevation_features_eq]
  cases hs : sort_by_distance (s ++ elevation_features o)
    with
  | nil => simp
  | cons p rest => exact (merge_aux_sublist rest p).cons₂ p

theorem preserve_elevation_features_pairwise (o s : List WorkingPoint) :
    (preserve_elevation_features o s).Pairwise
      (fun a b => a.distance_from_start ≤ b.distance_from_start) :=
  (sort_by_distance_pairwise _).sublist (preserve_elevation_features_sublist_sorted o s)

theorem preserve_elevation_features_mem (o s : List WorkingPoint) (q : WorkingPoint)
    (hq : q ∈ preserve_elevation_features o s) : q ∈ s ∨ q ∈ o := by
  have h1 : q ∈ sort_by_distance
      (s ++ elevation_features o) :=
    (preserve_elevation_features_sublist_sorted o s).mem hq
  have h2 := (sort_by_distance_perm _).mem_iff.mp h1
  rcases List.mem_append.mp h2 with h3 | h3
  · exact Or.inl h3
  · exact Or.inr (List.mem_of_mem_filter h3)

/-- If the head of the simplified sequence has minimal key among all merged
points, it stays at the head of `_preserve_elevation_features`. -/
theorem preserve_elevation_features_headI (o : List WorkingPoint) (s0 : WorkingPoint)
    (stail : List WorkingPoint)
    (hmin : ∀ q ∈ stail ++ elevation_features o,
      s0.distance_from_start ≤ q.distance_from_start) :
    (preserve_elevation_features o (s0 :: stail)).headI = s0 := by
  rw [preserve_elevation_features_eq]
  have hcons : (s0 :: stail) ++ elevation_features o =
      s0 :: (stail ++ elevation_features o) := by simp
  rw [hcons, sort_by_distance_cons_min s0 _ hmin]
  rfl

theorem preserve_elevation_features_ne_nil (o : List WorkingPoint) (s0 : WorkingPoint)
    (stail : List WorkingPoint)
    (hmin : ∀ q ∈ stail ++ elevation_features o,
      s0.distance_from_start ≤ q.distance_from_start) :
    preserve_elevation_features o (s0 :: stail) ≠ [] := by
  rw [preserve_elevation_features_eq]
  have hcons : (s0 :: stail) ++ elevation_features o =
      s0 :: (stail ++ elevation_features o) := by simp
  rw [hcons, sort_by_distance_cons_min s0 _ hmin]
  simp

/-! ### Structure of `_ensure_minimum_density` -/

theorem pyint_nonneg_eq_floor {x : ℝ} (h : 0 ≤ x) : pyint x = ⌊x⌋ := if_pos h

theorem pyint_mono {x y : ℝ} (hx : 0 ≤ x) (hxy : x ≤ y) : pyint x ≤ pyint y := by
  rw [pyint_nonneg_eq_floor hx, pyint_nonneg_eq_floor (le_trans hx hxy)]
  exact Int.floor_le_floor hxy

theorem ensure_minimum_density_cases (self : GPXOptimizer) (pts : List WorkingPoint)
    (out : List WorkingPoint) (h : ensure_minimum_density self pts = some out) :
    (out = pts ∧ (pts.length < 2 ∨ (pts.length : ℤ) ≤ max_total_points self pts)) ∨
    (2 ≤ pts.length ∧ 1 ≤ max_total_points self pts ∧
      (max_total_points self pts : ℤ) < pts.length ∧
      (out = density_sampled self pts ++ [pts.getLastI] ∨
        (out = density_sampled self pts ∧
          (density_sampled self pts).getLastI = pts.getLastI))) := by
  unfold ensure_minimum_density at h
  split_ifs at h with h1 h2 h3 h4
  · exact Or.inl ⟨(Option.some_injective _ h).symm, Or.inl h1⟩
  · exact Or.inl ⟨(Option.some_injective _ h).symm, Or.inr h2⟩
  · exact Or.inr ⟨by omega, by omega, by omega,
      Or.inl (Option.some_injective _ h).symm⟩
  · exact Or.inr ⟨by omega, by omega, by omega,
      Or.inr ⟨(Option.some_injective _ h).symm, not_ne_iff.mp h4⟩⟩

theorem pyint_zero : pyint 0 = 0 := by
  unfold pyint
  rw [if_pos (le_refl 0)]
  exact Int.floor_zero

theorem density_step_nonneg (self : GPXOptimizer) (pts : List WorkingPoint) :
    0 ≤ density_step self pts := by
  unfold density_step
  positivity

theorem density_sampled_mem (self : GPXOptimizer) (pts : List WorkingPoint)
    (hlen : 0 < pts.length) (q : WorkingPoint) (hq : q ∈ density_sampled self pts) :
    q ∈ pts := by
  unfold density_sampled at hq
  obtain ⟨i, _, hfi⟩ := List.mem_filterMap.mp hq
  split_ifs at hfi with hidx
  · have hq' := Option.some_injective _ hfi
    have hlt : (pyint (i * density_step self pts)).toNat < pts.length := by omega
    rw [← hq']
    exact getD_mem default hlt

theorem density_sampled_length_le (self : GPXOptimizer) (pts : List WorkingPoint) :
    (density_sampled self pts).length ≤ (max_total_points self pts).toNat := by
  unfold density_sampled
  calc ((List.range (max_total_points self pts).toNat).filterMap _).length
      ≤ (List.range (max_total_points self pts).toNat).length :=
        List.length_filterMap_le _ _
  _ = (max_total_points self pts).toNat := List.length_range _

theorem density_sampled_pairwise (self : GPXOptimizer) (pts : List WorkingPoint)
    (hp : pts.Pairwise (fun a b => a.distance_from_start ≤ b.distance_from_start)) :
    (density_sampled self pts).Pairwise
      (fun a b => a.distance_from_start ≤ b.distance_from_start) := by
  unfold density_sampled
  refine List.Pairwise.filterMap _ ?_
    (List.pairwise_lt_range (max_total_points self pts).toNat)
  intro i j hij x hx y hy
  split_ifs at hx hy with hxi hyj
  · have hx' := Option.some_injective _ hx
    have hy' := Option.some_injective _ hy
    have hstep := density_step_nonneg self pts
    have hmono : pyint ((i : ℝ) * density_step self pts) ≤
        pyint ((j : ℝ) * density_step self pts) := by
      apply pyint_mono
      · positivity
      · apply mul_le_mul_of_nonneg_right _ hstep
        exact_mod_cast le_of_lt hij
    have hxnn : (0 : ℤ) ≤ pyint ((i : ℝ) * density_step self pts) := by
      rw [pyint_nonneg_eq_floor (by positivity)]
      exact Int.floor_nonneg.mpr (by positivity)
    have hilt : (pyint ((i : ℝ) * density_step self pts)).toNat < pts.length := by omega
    have hjlt : (pyint ((j : ℝ) * density_step self pts)).toNat < pts.length := by omega
    rw [← hx', ← hy', List.getD_eq_getElem pts default hilt,
      List.getD_eq_getElem pts default hjlt]
    have hle : (pyint ((i : ℝ) * density_step self pts)).toNat ≤
        (pyint ((j : ℝ) * density_step self pts)).toNat := by omega
    rcases Nat.lt_or_ge (pyint ((i : ℝ) * density_step self pts)).toNat
        (pyint ((j : ℝ) * density_step self pts)).toNat with hltn | hge
    · exact (List.pairwise_iff_getElem.mp hp) _ _ hilt hjlt hltn
    · have heq : (pyint ((i : ℝ) * density_step self pts)).toNat =
          (pyint ((j : ℝ) * density_step self pts)).toNat := by omega
      simp [heq]
  · exact absurd hy (by simp)
  · exact absurd hx (by simp)
  · exact absurd hx (by simp)

theorem density_sampled_cons (self : GPXOptimizer) (pts : List WorkingPoint)
    (h1 : 1 ≤ max_total_points self pts) (hlen : 0 < pts.length) :
    ∃ rest, density_sampled self pts = pts.headI :: rest := by
  unfold density_sampled
  have hn : (max_total_points self pts).toNat = ((max_total_points self pts).toNat - 1) + 1 :=
    by omega
  rw [hn, List.range_succ_eq_map]
  have hf0 : (if pyint ((0 : ℕ) * density_step self pts) < (pts.length : ℤ) then
      some (pts.getD (pyint ((0 : ℕ) * density_step self pts)).toNat default)
      else none) = some pts.headI := by
    have hz : ((0 : ℕ) : ℝ) * density_step self pts = 0 := by simp
    rw [hz, pyint_zero]
    rw [if_pos (by exact_mod_cast hlen)]
    rw [Int.toNat_zero, headI_eq_getD pts (by
      intro hc
      rw [hc] at hlen
      simp at hlen)]
  rw [List.filterMap_cons, hf0]
  exact ⟨_, rfl⟩

/-- Everything `_ensure_minimum_density` returns: head preserved, last element
is its input's last, elements come from the input, the order (by cumulative
distance) is preserved, and in the sampling branch the length is bounded. -/
theorem ensure_minimum_density_props (self : GPXOptimizer) (pts : List WorkingPoint)
    (out : List WorkingPoint) (h : ensure_minimum_density self pts = some out)
    (hp : pts.Pairwise (fun a b => a.distance_from_start ≤ b.distance_from_start)) :
    (∀ q ∈ out, q ∈ pts) ∧
    out.Pairwise (fun a b => a.distance_from_start ≤ b.distance_from_start) ∧
    (pts ≠ [] → out ≠ [] ∧ out.headI = pts.headI ∧ out.getLastI = pts.getLastI) ∧
    (out = pts ∨ (out.length : ℤ) ≤ max_total_points self pts + 1) := by
  rcases ensure_minimum_density_cases self pts out h with ⟨hout, _⟩ | hbr
  · subst hout
    exact ⟨fun q hq => hq, hp, fun hne => ⟨hne, rfl, rfl⟩, Or.inl rfl⟩
  · obtain ⟨hlen2, hmt1, hmtlt, hout⟩ := hbr
    have hlen0 : 0 < pts.length := by omega
    have hne : pts ≠ [] := by
      intro hc
      rw [hc] at hlen0
      simp at hlen0
    have hmem : ∀ q ∈ density_sampled self pts, q ∈ pts :=
      fun q hq => density_sampled_mem self pts hlen0 q hq
    have hpair := density_sampled_pairwise self pts hp
    obtain ⟨rest, hcons⟩ := density_sampled_cons self pts hmt1 hlen0
    have hlast_mem : pts.getLastI ∈ pts := getLastI_mem hne
    have hlenb : ((density_sampled self pts).length : ℤ) ≤ max_total_points self pts := by
      have := density_sampled_length_le self pts
      omega
    rcases hout with hout | ⟨hout, hlast⟩
    · subst hout
      refine ⟨?_, ?_, ?_, ?_⟩
      · intro q hq
        rcases List.mem_append.mp hq with hq' | hq'
        · exact hmem q hq'
        · rw [List.mem_singleton.mp hq']
          exact hlast_mem
      · rw [List.pairwise_append]
        refine ⟨hpair, List.pairwise_singleton _ _, ?_⟩
        intro x hx y hy
        rw [List.mem_singleton.mp hy]
        exact pairwise_dist_le_getLastI pts hp x (hmem x hx)
      · intro _
        refine ⟨by simp, ?_, ?_⟩
        · rw [headI_append _ (by rw [hcons]; simp), hcons]
          rfl
        · rw [getLastI_append _ (by simp)]
          rfl
      · refine Or.inr ?_
        rw [List.length_append]
        simp only [List.length_singleton]
        omega
    · subst hout
      refine ⟨hmem, hpair, ?_, Or.inr (by omega)⟩
      intro _
      refine ⟨by rw [hcons]; simp, ?_, hlast⟩
      rw [hcons]
      rfl

/-! ### Pipeline-level lemmas -/

theorem headI_map {α β : Type} [Inhabited α] [Inhabited β] (f : α → β) (l : List α)
    (h : l ≠ []) : (l.map f).headI = f l.headI := by
  cases l with
  | nil => exact absurd rfl h
  | cons a t => rfl

theorem getLastI_map {α β : Type} [Inhabited α] [Inhabited β] (f : α → β) (l : List α)
    (h : l ≠ []) : (l.map f).getLastI = f l.getLastI := by
  rw [List.getLastI_eq_getLast?, List.getLastI_eq_getLast?, List.getLast?_map,
    List.getLast?_eq_getLast _ h]
  rfl

theorem getLastI_eq_getD {α : Type} [Inhabited α] (l : List α) (h : l ≠ []) :
    l.getLastI = l.getD (l.length - 1) default := by
  have hlen : 0 < l.length := List.length_pos.mpr h
  have h1 : l.length - 1 < l.length := by omega
  rw [List.getLastI_eq_getLast?, List.getLast?_eq_getElem? l,
    List.getElem?_eq_getElem h1, List.getD_eq_getElem l default h1]

theorem douglas_peucker_sublist (points : List WorkingPoint) (tol : ℝ) :
    (douglas_peucker points tol).Sublist points := by
  by_cases h : 2 ≤ points.length
  · exact (douglas_peucker_props points tol h).2.1
  · rw [douglas_peucker, if_pos (by omega)]

theorem optimize_track_eq_main (self : GPXOptimizer) (pts : List RawPoint)
    (h : ¬ pts.length < 3) :
    optimize_track self pts =
      (ensure_minimum_density self (elevation_preserved_stage self pts)).map
        convert_to_track_points := by
  unfold optimize_track elevation_preserved_stage
  rw [if_neg h]

theorem elevation_preserved_stage_mem (self : GPXOptimizer) (pts : List RawPoint)
    (q : WorkingPoint) (hq : q ∈ elevation_preserved_stage self pts) :
    q ∈ add_distance_data pts := by
  unfold elevation_preserved_stage at hq
  rcases preserve_elevation_features_mem _ _ q hq with h | h
  · exact (remove_redundant_points_sublist self _).subset
      ((douglas_peucker_sublist _ _).subset h)
  · exact h

theorem elevation_preserved_stage_head (self : GPXOptimizer) (pts : List RawPoint)
    (h3 : 3 ≤ pts.length) :
    elevation_preserved_stage self pts ≠ [] ∧
    (elevation_preserved_stage self pts).headI = (add_distance_data pts).headI := by
  have hplen : (add_distance_data pts).length = pts.length := add_distance_data_length pts
  have hpne : add_distance_data pts ≠ [] := by
    intro hc
    rw [hc] at hplen
    simp at hplen
    omega
  have hflen : 2 ≤ (remove_redundant_points self (add_distance_data pts)).length :=
    remove_redundant_points_length_ge self _ (by omega)
  have hdp := douglas_peucker_props (remove_redundant_points self (add_distance_data pts))
    self.distance_tolerance hflen
  set simplified := douglas_peucker (remove_redundant_points self (add_distance_data pts))
    self.distance_tolerance with hsdef
  have hsne : simplified ≠ [] := by
    intro hc
    rw [hc] at hdp
    simp at hdp
  have hshead : simplified.headI = (add_distance_data pts).headI := by
    rw [hdp.2.2.1, remove_redundant_points_headI]
  obtain ⟨s0, stail, hs⟩ : ∃ s0 stail, simplified = s0 :: stail := by
    cases hsc : simplified with
    | nil => exact absurd hsc hsne
    | cons a t => exact ⟨a, t, rfl⟩
  have hs0 : s0 = (add_distance_data pts).headI := by
    rw [← hshead, hs]
    rfl
  have hs0dist : s0.distance_from_start = 0 := by
    rw [hs0]
    exact add_distance_data_headI_dist pts (by
      intro hc
      rw [hc] at h3
      simp at h3)
  have hmin : ∀ q ∈ stail ++ elevation_features (add_distance_data pts),
      s0.distance_from_start ≤ q.distance_from_start := by
    intro q hq
    rw [hs0dist]
    rcases List.mem_append.mp hq with hq' | hq'
    · have hq2 : q ∈ simplified := by
        rw [hs]
        exact List.mem_cons_of_mem s0 hq'
      have hq3 : q ∈ add_distance_data pts :=
        (remove_redundant_points_sublist self _).subset
          ((douglas_peucker_sublist _ _).subset hq2)
      exact add_distance_data_dist_nonneg pts q hq3
    · have hq3 : q ∈ add_distance_data pts := List.mem_of_mem_filter hq'
      exact add_distance_data_dist_nonneg pts q hq3
  constructor
  · unfold elevation_preserved_stage
    rw [← hsdef, hs]
    exact preserve_elevation_features_ne_nil _ s0 stail hmin
  · unfold elevation_preserved_stage
    rw [← hsdef, hs, preserve_elevation_features_headI _ s0 stail hmin, hs0]

/-! ### `list_max` and `list_min` facts -/

theorem foldl_max_facts (t : List ℝ) : ∀ a : ℝ,
    a ≤ t.foldl max a ∧ ∀ x ∈ t, x ≤ t.foldl max a := by
  induction t with
  | nil => intro a; simp
  | cons b t ih =>
    intro a
    have h := ih (max a b)
    refine ⟨le_trans (le_max_left a b) h.1, ?_⟩
    intro x hx
    rcases List.mem_cons.mp hx with hx' | hx'
    · rw [hx']
      exact le_trans (le_max_right a b) h.1
    · exact h.2 x hx'

theorem foldl_min_facts (t : List ℝ) : ∀ a : ℝ,
    t.foldl min a ≤ a ∧ ∀ x ∈ t, t.foldl min a ≤ x := by
  induction t with
  | nil => intro a; simp
  | cons b t ih =>
    intro a
    have h := ih (min a b)
    refine ⟨le_trans h.1 (min_le_left a b), ?_⟩
    intro x hx
    rcases List.mem_cons.mp hx with hx' | hx'
    · rw [hx']
      exact le_trans h.1 (min_le_right a b)
    · exact h.2 x hx'

theorem le_list_max (l : List ℝ) (x : ℝ) (hx : x ∈ l) : x ≤ list_max l := by
  cases l with
  | nil => simp at hx
  | cons a t =>
    rcases List.mem_cons.mp hx with hx' | hx'
    · rw [hx']
      exact (foldl_max_facts t a).1
    · exact (foldl_max_facts t a).2 x hx'

theorem list_min_le (l : List ℝ) (x : ℝ) (hx : x ∈ l) : list_min l ≤ x := by
  cases l with
  | nil => simp at hx
  | cons a t =>
    rcases List.mem_cons.mp hx with hx' | hx'
    · rw [hx']
      exact (foldl_min_facts t a).1
    · exact (foldl_min_facts t a).2 x hx'

theorem foldl_max_le (t : List ℝ) : ∀ (a c : ℝ), a ≤ c → (∀ x ∈ t, x ≤ c) →
    t.foldl max a ≤ c := by
  induction t with
  | nil => intro a c ha _; simpa using ha
  | cons b t ih =>
    intro a c ha hb
    simp only [List.foldl_cons]
    refine ih (max a b) c ?_ ?_
    · exact max_le ha (hb b (List.mem_cons_self b t))
    · intro x hx
      exact hb x (List.mem_cons_of_mem b hx)

theorem list_max_le_of_forall (l : List ℝ) (c : ℝ) (hc : ∀ x ∈ l, x ≤ c)
    (h0 : 0 ≤ c) : list_max l ≤ c := by
  cases l with
  | nil => simpa [list_max] using h0
  | cons a t =>
    exact foldl_max_le t a c (hc a (List.mem_cons_self a t))
      (fun x hx => hc x (List.mem_cons_of_mem a hx))

/-- Filtering a duplicate-free list by a predicate that holds exactly at one
member returns the singleton of that member. -/
theorem filter_eq_singleton {l : List WorkingPoint} {P : WorkingPoint → Bool}
    {z : WorkingPoint} (hnd : l.Nodup) (hz : z ∈ l)
    (hP : ∀ p ∈ l, P p = true ↔ p = z) : l.filter P = [z] := by
  induction l with
  | nil => simp at hz
  | cons a t ih =>
    have hnd' := List.nodup_cons.mp hnd
    rcases List.mem_cons.mp hz with hz' | hz'
    · have hPa : P a = true := (hP a (List.mem_cons_self a t)).mpr hz'.symm
      rw [List.filter_cons_of_pos hPa]
      have ht : t.filter P = [] := by
        rw [List.filter_eq_nil_iff]
        intro x hx hPx
        have hxz := (hP x (List.mem_cons_of_mem a hx)).mp hPx
        rw [hxz, hz'] at hx
        exact hnd'.1 hx
      rw [ht, ← hz']
    · have hPa : ¬ P a = true := by
        intro hPa
        have haz := (hP a (List.mem_cons_self a t)).mp hPa
        rw [← haz] at hz'
        exact hnd'.1 hz'
      rw [List.filter_cons_of_neg hPa]
      exact ih hnd'.2 hz' (fun p hp => hP p (List.mem_cons_of_mem a hp))

theorem elevation_preserved_stage_pairwise (self : GPXOptimizer) (pts : List RawPoint) :
    (elevation_preserved_stage self pts).Pairwise
      (fun a b => a.distance_from_start ≤ b.distance_from_start) := by
  unfold elevation_preserved_stage
  exact preserve_elevation_features_pairwise _ _

/-- Splitting an `optimize_track = some out` equation on the main path. -/
theorem optimize_track_main_inv (self : GPXOptimizer) (pts : List RawPoint)
    (out : List TrackPoint) (h3 : ¬ pts.length < 3)
    (h : optimize_track self pts = some out) :
    ∃ out' : List WorkingPoint,
      ensure_minimum_density self (elevation_preserved_stage self pts) = some out' ∧
      out = convert_to_track_points out' := by
  rw [optimize_track_eq_main self pts h3] at h
  rcases Option.map_eq_some'.mp h with ⟨out', hout', hmap⟩
  exact ⟨out', hout', hmap.symm⟩

/-! ### The terminal point through the 5 m dedup pass -/

/-- If a list processed by the dedup loop ends with `z`, contains `z` nowhere
else, and every candidate "last kept" point is more than 5 m from `z`, then
the dedup output still ends with `z`. -/
theorem merge_aux_getLastI_strict (z : WorkingPoint) (S : List WorkingPoint)
    (hsep : ∀ q ∈ S, q ≠ z →
      5 < haversine_distance q.latitude q.longitude z.latitude z.longitude) :
    ∀ (l : List WorkingPoint) (lk : WorkingPoint), lk ∈ S → lk ≠ z →
      (∀ x ∈ l, x ∈ S) → l.getLastI = z → (∀ x ∈ l.dropLast, x ≠ z) → l ≠ [] →
      (merge_aux lk l).getLastI = z ∧ merge_aux lk l ≠ [] := by
  intro l
  induction l with
  | nil =>
    intro lk _ _ _ _ _ hne
    exact absurd rfl hne
  | cons p rest ih =>
    intro lk hlkS hlkz hmem hlast hdrop _
    cases rest with
    | nil =>
      have hp : p = z := hlast
      rw [merge_aux, if_pos (by rw [hp]; exact hsep lk hlkS hlkz)]
      rw [merge_aux]
      exact ⟨hp, by simp⟩
    | cons p2 rest2 =>
      have hpS : p ∈ S := hmem p (List.mem_cons_self p (p2 :: rest2))
      have hpz : p ≠ z := hdrop p (by
        rw [List.dropLast_cons₂]
        exact List.mem_cons_self p _)
      have hlast2 : (p2 :: rest2).getLastI = z :=
        (getLastI_cons p (by simp)).symm.trans hlast
      have hdrop2 : ∀ x ∈ (p2 :: rest2).dropLast, x ≠ z := by
        intro x hx
        apply hdrop
        rw [List.dropLast_cons₂]
        exact List.mem_cons_of_mem p hx
      have hmem2 : ∀ x ∈ p2 :: rest2, x ∈ S :=
        fun x hx => hmem x (List.mem_cons_of_mem p hx)
      rw [merge_aux]
      split_ifs with hk
      · have hres := ih p hpS hpz hmem2 hlast2 hdrop2 (by simp)
        exact ⟨(getLastI_cons p hres.2).trans hres.1, by simp⟩
      · exact ih lk hlkS hlkz hmem2 hlast2 hdrop2 (by simp)

open Classical in
/-- When the last annotated point has strictly maximal cumulative distance
and is more than 5 m from every other annotated point, it survives the merge
stage as its last element. -/
theorem elevation_preserved_stage_getLastI (self : GPXOptimizer) (pts : List RawPoint)
    (h3 : 3 ≤ pts.length)
    (hstrict : ∀ q ∈ add_distance_data pts, q ≠ (add_distance_data pts).getLastI →
      q.distance_from_start < (add_distance_data pts).getLastI.distance_from_start)
    (hsep : ∀ q ∈ add_distance_data pts, q ≠ (add_distance_data pts).getLastI →
      5 < haversine_distance q.latitude q.longitude
        (add_distance_data pts).getLastI.latitude
        (add_distance_data pts).getLastI.longitude) :
    (elevation_preserved_stage self pts).getLastI = (add_distance_data pts).getLastI := by
  have hplen : (add_distance_data pts).length = pts.length := add_distance_data_length pts
  have hpne : add_distance_data pts ≠ [] := by
    intro hc
    rw [hc] at hplen
    simp at hplen
    omega
  have hflen : 2 ≤ (remove_redundant_points self (add_distance_data pts)).length :=
    remove_redundant_points_length_ge self _ (by omega)
  have hdp := douglas_peucker_props (remove_redundant_points self (add_distance_data pts))
    self.distance_tolerance hflen
  set simplified := douglas_peucker (remove_redundant_points self (add_distance_data pts))
    self.distance_tolerance with hsdef
  set z := (add_distance_data pts).getLastI with hzdef
  have hsne : simplified ≠ [] := by
    intro hc
    rw [hc] at hdp
    simp at hdp
  have hsub : simplified.Sublist (add_distance_data pts) :=
    hdp.2.1.trans (remove_redundant_points_sublist self _)
  have hslast : simplified.getLastI = z := by
    rw [hdp.2.2.2, remove_redundant_points_getLastI]
  have hzmem : z ∈ simplified := by
    rw [← hslast]
    exact getLastI_mem hsne
  have hznodup : simplified.Nodup := (add_distance_data_nodup pts).sublist hsub
  have hzidx : z.index = pts.length - 1 := by
    rw [hzdef, Optimizer.getLastI_eq_getD _ hpne, hplen]
    exact (add_distance_data_getElem pts (pts.length - 1) (by omega)).2.2.2
  have hznotfeat : z ∉ elevation_features (add_distance_data pts) := by
    intro hc
    unfold elevation_features at hc
    have := List.of_mem_filter hc
    rw [decide_eq_true_eq] at this
    unfold is_elevation_peak_or_valley at this
    rw [if_pos (Or.inr (by rw [hplen, hzidx]))] at this
    exact this
  set feats := elevation_features (add_distance_data pts) with hfdef
  have hfeat_sub : ∀ x ∈ feats, x ∈ add_distance_data pts := by
    intro x hx
    rw [hfdef] at hx
    exact List.mem_of_mem_filter hx
  set sorted := sort_by_distance (simplified ++ feats) with hsort
  have hsperm : sorted.Perm (simplified ++ feats) := sort_by_distance_perm _
  have hsmem : ∀ x ∈ sorted, x ∈ add_distance_data pts := by
    intro x hx
    rcases List.mem_append.mp (hsperm.mem_iff.mp hx) with hx' | hx'
    · exact hsub.subset hx'
    · exact hfeat_sub x hx'
  have hzsort : z ∈ sorted := hsperm.mem_iff.mpr (List.mem_append.mpr (Or.inl hzmem))
  have hsortne : sorted ≠ [] := by
    intro hc
    rw [hc] at hzsort
    simp at hzsort
  have hspair : sorted.Pairwise (fun a b => a.distance_from_start ≤ b.distance_from_start)
      := by
    rw [hsort]
    exact sort_by_distance_pairwise _
  have hcount : sorted.count z = 1 := by
    rw [hsperm.count_eq, List.count_append, List.count_eq_one_of_mem hznodup hzmem,
      List.count_eq_zero.mpr hznotfeat]
  have hsortlast : sorted.getLastI = z := by
    by_contra hne
    have hwmem : sorted.getLastI ∈ add_distance_data pts :=
      hsmem _ (getLastI_mem hsortne)
    have h1 : z.distance_from_start ≤ sorted.getLastI.distance_from_start :=
      pairwise_dist_le_getLastI sorted hspair z hzsort
    have h2 : sorted.getLastI.distance_from_start < z.distance_from_start :=
      hstrict _ hwmem hne
    linarith
  have hzdrop : ∀ x ∈ sorted.dropLast, x ≠ z := by
    have hgl : sorted.getLast hsortne = z := by
      have hgi : sorted.getLastI = sorted.getLast hsortne := by
        rw [List.getLastI_eq_getLast?, List.getLast?_eq_getLast _ hsortne]
      rw [← hgi, hsortlast]
    have hsplit := List.dropLast_append_getLast hsortne
    rw [hgl] at hsplit
    have hcnt2 : sorted.count z = sorted.dropLast.count z + 1 := by
      rw [← hsplit, List.count_append]
      simp
    have hz0 : sorted.dropLast.count z = 0 := by omega
    have hznot : z ∉ sorted.dropLast := List.count_eq_zero.mp hz0
    intro x hx hc
    exact hznot (hc ▸ hx)
  unfold elevation_preserved_stage
  rw [preserve_elevation_features_eq, ← hfdef, ← hsdef, ← hsort]
  cases hs : sorted with
  | nil => exact absurd hs hsortne
  | cons p rest =>
    cases rest with
    | nil =>
      have hp : p = z := by
        rw [hs] at hsortlast
        exact hsortlast
      exact hp
    | cons p2 rest2 =>
      have hpz : p ≠ z := by
        apply hzdrop p
        rw [hs, List.dropLast_cons₂]
        exact List.mem_cons_self p _
      have hpmem : p ∈ add_distance_data pts := by
        apply hsmem
        rw [hs]
        exact List.mem_cons_self p _
      have hres := merge_aux_getLastI_strict z (add_distance_data pts) hsep
        (p2 :: rest2) p hpmem hpz
        (by
          intro x hx
          apply hsmem
          rw [hs]
          exact List.mem_cons_of_mem p hx)
        ((getLastI_cons p (by simp)).symm.trans (by rw [← hs]; exact hsortlast))
        (by
          intro x hx
          apply hzdrop
          rw [hs, List.dropLast_cons₂]
          exact List.mem_cons_of_mem p hx)
        (by simp)
      exact (getLastI_cons p hres.2).trans hres.1

/-! ### Peak detection on a single-spike track -/

theorem getD_mem_slice {α : Type} [Inhabited α] (l : List α) (s t j : ℕ)
    (hs : s ≤ j) (hj : j < t) (hlen : j < l.length) :
    l.getD j default ∈ (l.drop s).take (t - s) := by
  have hd : (l.drop s).length = l.length - s := List.length_drop s l
  have hb1 : j - s < (l.drop s).length := by omega
  have hb2 : j - s < ((l.drop s).take (t - s)).length := by
    rw [List.length_take]
    omega
  have hdrop : (l.drop s)[j - s] = l[j] := by
    rw [List.getElem_drop]
    congr 1
    omega
  have htk : ((l.drop s).take (t - s))[j - s] = (l.drop s)[j - s] := by
    rw [List.getElem_take]
  rw [List.getD_eq_getElem l default hlen, ← hdrop, ← htk]
  exact List.getElem_mem _

open Classical in
/-- On a track whose only nonzero elevation is a 50 m spike at interior index
`m`, and which has at least 10 points (non-empty window), a point is detected
as an elevation peak or valley exactly at index `m`. -/
theorem spike_peak_iff (pts : List RawPoint) (m : ℕ)
    (hlen : 10 ≤ pts.length) (hm0 : 0 < m) (hmn : m + 1 < pts.length)
    (helev0 : ∀ i, i < pts.length → i ≠ m → (pts.getD i default).elevation = 0)
    (helevm : (pts.getD m default).elevation = 50)
    (j : ℕ) (hj : j < pts.length) :
    is_elevation_peak_or_valley (add_distance_data pts) j ↔ j = m := by
  have hplen : (add_distance_data pts).length = pts.length := add_distance_data_length pts
  have hw1 : 1 ≤ min 5 ((add_distance_data pts).length / 10) := by
    rw [hplen]
    have : 1 ≤ pts.length / 10 := by omega
    omega
  have helevP : ∀ i, i < pts.length →
      ((add_distance_data pts).getD i default).elevation = (pts.getD i default).elevation
      := by
    intro i hi
    rw [(add_distance_data_getElem pts i hi).2.2.1, List.getD_eq_getElem pts default hi]
  have hidxP : ∀ i, i < pts.length →
      ((add_distance_data pts).getD i default).index = i := by
    intro i hi
    exact (add_distance_data_getElem pts i hi).2.2.2
  have hmemP : ∀ x ∈ add_distance_data pts, ∃ i, i < pts.length ∧
      x = (add_distance_data pts).getD i default := by
    intro x hx
    obtain ⟨i, hi, hxi⟩ := List.mem_iff_getElem.mp hx
    refine ⟨i, by omega, ?_⟩
    rw [List.getD_eq_getElem _ default hi, hxi]
  constructor
  · intro hpk
    by_contra hjm
    unfold is_elevation_peak_or_valley at hpk
    by_cases hg : j = 0 ∨ (add_distance_data pts).length - 1 ≤ j
    · rw [if_pos hg] at hpk
      exact hpk
    · rw [if_neg hg] at hpk
      push_neg at hg
      obtain ⟨hne0, hlt⟩ := hg
      rw [hplen] at hlt
      -- an elevation-0 neighbor inside the window, distinct from index j
      set jp := if j - 1 = m then j + 1 else j - 1 with hjp
      have hjp_ne_m : jp ≠ m := by
        rw [hjp]
        split_ifs with hcase
        · omega
        · exact hcase
      have hjp_ne_j : jp ≠ j := by
        rw [hjp]
        split_ifs <;> omega
      have hjp_lt : jp < pts.length := by
        rw [hjp]
        split_ifs <;> omega
      have hjp_in_lo : j - min 5 ((add_distance_data pts).length / 10) ≤ jp := by
        rw [hjp]
        split_ifs <;> omega
      have hjp_in_hi : jp < min (add_distance_data pts).length
          (j + min 5 ((add_distance_data pts).length / 10) + 1) := by
        rw [hplen, hjp]
        split_ifs <;> omega
      have hmem_slice : (add_distance_data pts).getD jp default ∈
          (((add_distance_data pts).drop
            (j - min 5 ((add_distance_data pts).length / 10))).take
            (min (add_distance_data pts).length
              (j + min 5 ((add_distance_data pts).length / 10) + 1) -
              (j - min 5 ((add_distance_data pts).length / 10)))) :=
        getD_mem_slice _ _ _ jp hjp_in_lo hjp_in_hi (by omega)
      have hjp_ne_elem : (add_distance_data pts).getD jp default ≠
          (add_distance_data pts).getD j default := by
        intro hc
        have := congrArg WorkingPoint.index hc
        rw [hidxP jp hjp_lt, hidxP j (by omega)] at this
        exact hjp_ne_j this
      have hzero_mem : (0:ℝ) ∈ ((((add_distance_data pts).drop
          (j - min 5 ((add_distance_data pts).length / 10))).take
          (min (add_distance_data pts).length
            (j + min 5 ((add_distance_data pts).length / 10) + 1) -
            (j - min 5 ((add_distance_data pts).length / 10)))).filter
          (fun p => p ≠ (add_distance_data pts).getD j default)).map
          (fun p => p.elevation) := by
        apply List.mem_map.mpr
        refine ⟨(add_distance_data pts).getD jp default, ?_, ?_⟩
        · apply List.mem_filter.mpr
          exact ⟨hmem_slice, by rw [decide_eq_true_eq]; exact hjp_ne_elem⟩
        · rw [helevP jp hjp_lt, helev0 jp hjp_lt hjp_ne_m]
      have hcurz : ((add_distance_data pts).getD j default).elevation = 0 := by
        rw [helevP j (by omega)]
        exact helev0 j (by omega) hjm
      rcases hpk.2 with hmax | hmin
      · rw [hcurz] at hmax
        have := le_list_max _ 0 hzero_mem
        linarith
      · rw [hcurz] at hmin
        have := list_min_le _ 0 hzero_mem
        linarith
  · intro hjm
    subst hjm
    unfold is_elevation_peak_or_valley
    rw [if_neg (by rw [hplen]; omega)]
    have hm_lt : j < pts.length := by omega
    have hjm1_lt : j - 1 < pts.length := by omega
    have hjm1_in_lo : j - min 5 ((add_distance_data pts).length / 10) ≤ j - 1 := by omega
    have hjm1_in_hi : j - 1 < min (add_distance_data pts).length
        (j + min 5 ((add_distance_data pts).length / 10) + 1) := by
      rw [hplen]
      omega
    have hmem_slice : (add_distance_data pts).getD (j - 1) default ∈
        (((add_distance_data pts).drop
          (j - min 5 ((add_distance_data pts).length / 10))).take
          (min (add_distance_data pts).length
            (j + min 5 ((add_distance_data pts).length / 10) + 1) -
            (j - min 5 ((add_distance_data pts).length / 10)))) :=
      getD_mem_slice _ _ _ (j - 1) hjm1_in_lo hjm1_in_hi (by omega)
    have hne_elem : (add_distance_data pts).getD (j - 1) default ≠
        (add_distance_data pts).getD j default := by
      intro hc
      have := congrArg WorkingPoint.index hc
      rw [hidxP (j - 1) hjm1_lt, hidxP j hm_lt] at this
      omega
    have hz_mem : ((add_distance_data pts).getD (j - 1) default).elevation ∈
        ((((add_distance_data pts).drop
          (j - min 5 ((add_distance_data pts).length / 10))).take
          (min (add_distance_data pts).length
            (j + min 5 ((add_distance_data pts).length / 10) + 1) -
            (j - min 5 ((add_distance_data pts).length / 10)))).filter
          (fun p => p ≠ (add_distance_data pts).getD j default)).map
          (fun p => p.elevation) := by
      apply List.mem_map.mpr
      exact ⟨_, List.mem_filter.mpr ⟨hmem_slice, by
        rw [decide_eq_true_eq]
        exact hne_elem⟩, rfl⟩
    constructor
    · intro hc
      rw [hc] at hz_mem
      simp at hz_mem
    · left
      rw [helevP j hm_lt, helevm]
      have hbound : list_max (((((add_distance_data pts).drop
          (j - min 5 ((add_distance_data pts).length / 10))).take
          (min (add_distance_data pts).length
            (j + min 5 ((add_distance_data pts).length / 10) + 1) -
            (j - min 5 ((add_distance_data pts).length / 10)))).filter
          (fun p => p ≠ (add_distance_data pts).getD j default)).map
          (fun p => p.elevation)) ≤ 0 := by
        apply list_max_le_of_forall _ 0 _ (le_refl 0)
        intro x hx
        obtain ⟨e, he, hex⟩ := List.mem_map.mp hx
        have he_slice := List.mem_of_mem_filter he
        have he_ne : e ≠ (add_distance_data pts).getD j default := by
          have := List.of_mem_filter he
          rwa [decide_eq_true_eq] at this
        have he_proc : e ∈ add_distance_data pts := by
          have h1 : e ∈ (add_distance_data pts).drop
              (j - min 5 ((add_distance_data pts).length / 10)) :=
            List.mem_of_mem_take he_slice
          exact List.mem_of_mem_drop h1
        obtain ⟨i, hi, hei⟩ := hmemP e he_proc
        have hi_ne : i ≠ j := by
          intro hc
          rw [hc] at hei
          exact he_ne hei
        rw [← hex, hei, helevP i hi, helev0 i hi hi_ne]
      linarith

/-! ### Evaluation on three-point meridian tracks -/

/-- On a 3-point sequence the elevation window `min(5, 3 // 10)` is 0, so no
point qualifies as a peak or valley. -/
theorem is_peak_three (x y z : WorkingPoint) (i : ℕ) :
    ¬ is_elevation_peak_or_valley [x, y, z] i := by
  unfold is_elevation_peak_or_valley
  by_cases hg : i = 0 ∨ ([x, y, z] : List WorkingPoint).length - 1 ≤ i
  · rw [if_pos hg]
    exact not_false
  · rw [if_neg hg]
    have hi : i = 1 := by
      simp at hg
      omega
    subst hi
    intro hcon
    apply hcon.1
    have e1 : ([x, y, z] : List WorkingPoint).length = 3 := rfl
    rw [e1]
    norm_num

theorem three_meridian_proc (a b e : ℝ) (h0a : 0 ≤ a) (hab : a ≤ b) (hb : b < 180) :
    add_distance_data [⟨0, 0, 0⟩, ⟨a, 0, e⟩, ⟨b, 0, 0⟩] =
      [⟨0, 0, 0, 0, 0⟩, ⟨a, 0, e, 6371000 * radians a, 1⟩,
        ⟨b, 0, 0, 6371000 * radians b, 2⟩] := by
  have hda : haversine_distance 0 0 a 0 = 6371000 * radians a := by
    have := haversine_meridian 0 a 0 (by linarith) (by linarith)
    simpa using this
  have hdab : haversine_distance a 0 b 0 = 6371000 * radians (b - a) :=
    haversine_meridian a b 0 (by linarith) (by linarith)
  have hsum : 6371000 * radians a + 6371000 * radians (b - a) = 6371000 * radians b := by
    unfold radians
    ring
  simp [add_distance_data, add_distance_data_aux, hda, hdab, hsum]

/-- Full evaluation of `optimize_track` with the default configuration on a
three-point track running north along the prime meridian. -/
theorem optimize_track_three_meridian (a b e : ℝ)
    (ha0 : 0 < a) (hab : a < b) (hb : b < 180) :
    optimize_track ⟨10, 5, 20⟩ [⟨0, 0, 0⟩, ⟨a, 0, e⟩, ⟨b, 0, 0⟩] =
      if 5 < 6371000 * radians b then
        (if 1 ≤ pyint (6371000 * radians b / 1000 * 20) then
          some [⟨0, 0, 0, 0⟩, ⟨b, 0, 0, 6371000 * radians b⟩]
        else none)
      else some [⟨0, 0, 0, 0⟩] := by
  have hb0 : 0 < b := lt_trans ha0 hab
  have hrb : 0 ≤ radians b := by
    unfold radians
    positivity
  have hD0 : (0 : ℝ) ≤ 6371000 * radians b := by positivity
  have hproc := three_meridian_proc a b e (le_of_lt ha0) (le_of_lt hab) hb
  have hslen : ([(⟨0, 0, 0⟩ : RawPoint), ⟨a, 0, e⟩, ⟨b, 0, 0⟩]).length = 3 := rfl
  rw [optimize_track_eq_main _ _ (by rw [hslen]; omega)]
  have hproc_len : (add_distance_data [(⟨0, 0, 0⟩ : RawPoint), ⟨a, 0, e⟩, ⟨b, 0, 0⟩]).length
      = 3 := by
    rw [hproc]
    rfl
  have hlng_proc : ∀ q ∈ add_distance_data [(⟨0, 0, 0⟩ : RawPoint), ⟨a, 0, e⟩, ⟨b, 0, 0⟩],
      q.longitude = 0 := by
    rw [hproc]
    intro q hq
    rcases List.mem_cons.mp hq with rfl | hq
    · rfl
    rcases List.mem_cons.mp hq with rfl | hq
    · rfl
    rcases List.mem_cons.mp hq with rfl | hq
    · rfl
    · simp at hq
  have hflen : 2 ≤ (remove_redundant_points ⟨10, 5, 20⟩
      (add_distance_data [(⟨0, 0, 0⟩ : RawPoint), ⟨a, 0, e⟩, ⟨b, 0, 0⟩])).length :=
    remove_redundant_points_length_ge _ _ (by omega)
  have hfsub := remove_redundant_points_sublist (⟨10, 5, 20⟩ : GPXOptimizer)
    (add_distance_data [(⟨0, 0, 0⟩ : RawPoint), ⟨a, 0, e⟩, ⟨b, 0, 0⟩])
  have hsimp : douglas_peucker (remove_redundant_points ⟨10, 5, 20⟩
      (add_distance_data [(⟨0, 0, 0⟩ : RawPoint), ⟨a, 0, e⟩, ⟨b, 0, 0⟩]))
      ((⟨10, 5, 20⟩ : GPXOptimizer).distance_tolerance) =
      [⟨0, 0, 0, 0, 0⟩, ⟨b, 0, 0, 6371000 * radians b, 2⟩] := by
    rw [douglas_peucker_same_longitude _ _ 0 hflen (by norm_num)
      (fun q hq => hlng_proc q (hfsub.subset hq))]
    rw [remove_redundant_points_headI, remove_redundant_points_getLastI, hproc]
    rfl
  have hstage : elevation_preserved_stage ⟨10, 5, 20⟩ [⟨0, 0, 0⟩, ⟨a, 0, e⟩, ⟨b, 0, 0⟩] =
      if 5 < 6371000 * radians b then
        [⟨0, 0, 0, 0, 0⟩, ⟨b, 0, 0, 6371000 * radians b, 2⟩]
      else [⟨0, 0, 0, 0, 0⟩] := by
    unfold elevation_preserved_stage
    rw [preserve_elevation_features_eq, hsimp]
    have hfeat : elevation_features
        (add_distance_data [(⟨0, 0, 0⟩ : RawPoint), ⟨a, 0, e⟩, ⟨b, 0, 0⟩]) = [] := by
      unfold elevation_features
      rw [hproc, List.filter_eq_nil_iff]
      intro p _
      simp only [decide_eq_true_eq]
      exact is_peak_three _ _ _ _
    rw [hfeat, List.append_nil]
    have hsort : sort_by_distance [(⟨0, 0, 0, 0, 0⟩ : WorkingPoint),
        ⟨b, 0, 0, 6371000 * radians b, 2⟩] =
        [⟨0, 0, 0, 0, 0⟩, ⟨b, 0, 0, 6371000 * radians b, 2⟩] := by
      show sort_insert _ (sort_insert _ []) = _
      rw [sort_insert, sort_insert, if_pos]
      exact hD0
    rw [hsort]
    have hhav : haversine_distance (⟨0, 0, 0, 0, 0⟩ : WorkingPoint).latitude
        (⟨0, 0, 0, 0, 0⟩ : WorkingPoint).longitude
        (⟨b, 0, 0, 6371000 * radians b, 2⟩ : WorkingPoint).latitude
        (⟨b, 0, 0, 6371000 * radians b, 2⟩ : WorkingPoint).longitude =
        6371000 * radians b := by
      show haversine_distance 0 0 b 0 = _
      have := haversine_meridian 0 b 0 (by linarith) (by linarith)
      simpa using this
    by_cases h5 : 5 < 6371000 * radians b
    · rw [if_pos h5]
      show (⟨0, 0, 0, 0, 0⟩ : WorkingPoint) :: merge_aux _ _ = _
      rw [merge_aux, hhav, if_pos h5, merge_aux]
    · rw [if_neg h5]
      show (⟨0, 0, 0, 0, 0⟩ : WorkingPoint) :: merge_aux _ _ = _
      rw [merge_aux, hhav, if_neg h5, merge_aux]
  rw [hstage]
  by_cases h5 : 5 < 6371000 * radians b
  · rw [if_pos h5, if_pos h5]
    have hq02 : (⟨0, 0, 0, 0, 0⟩ : WorkingPoint) ≠ ⟨b, 0, 0, 6371000 * radians b, 2⟩ := by
      intro hc
      have := congrArg WorkingPoint.index hc
      simp at this
    have hM0 : 0 ≤ max_total_points ⟨10, 5, 20⟩
        [(⟨0, 0, 0, 0, 0⟩ : WorkingPoint), ⟨b, 0, 0, 6371000 * radians b, 2⟩] := by
      unfold max_total_points
      rw [pyint_nonneg_eq_floor (by
        show (0:ℝ) ≤ (⟨b, 0, 0, 6371000 * radians b, 2⟩ :
          WorkingPoint).distance_from_start / 1000 * ((20 : ℕ) : ℝ)
        show (0:ℝ) ≤ 6371000 * radians b / 1000 * ((20 : ℕ) : ℝ)
        positivity)]
      apply Int.floor_nonneg.mpr
      show (0:ℝ) ≤ 6371000 * radians b / 1000 * ((20 : ℕ) : ℝ)
      positivity
    have hMdef : max_total_points ⟨10, 5, 20⟩
        [(⟨0, 0, 0, 0, 0⟩ : WorkingPoint), ⟨b, 0, 0, 6371000 * radians b, 2⟩] =
        pyint (6371000 * radians b / 1000 * 20) := by
      unfold max_total_points
      have hgl : ([(⟨0, 0, 0, 0, 0⟩ : WorkingPoint),
          ⟨b, 0, 0, 6371000 * radians b, 2⟩] : List WorkingPoint).getLastI =
          ⟨b, 0, 0, 6371000 * radians b, 2⟩ := rfl
      rw [hgl]
      norm_num
    unfold ensure_minimum_density
    rw [if_neg (by simp)]
    by_cases hM2 : ((([(⟨0, 0, 0, 0, 0⟩ : WorkingPoint),
        ⟨b, 0, 0, 6371000 * radians b, 2⟩] : List WorkingPoint).length : ℤ) ≤
        max_total_points ⟨10, 5, 20⟩
          [(⟨0, 0, 0, 0, 0⟩ : WorkingPoint), ⟨b, 0, 0, 6371000 * radians b, 2⟩])
    · rw [if_pos hM2, if_pos (by
        rw [← hMdef]
        have : (([(⟨0, 0, 0, 0, 0⟩ : WorkingPoint),
          ⟨b, 0, 0, 6371000 * radians b, 2⟩] : List WorkingPoint).length : ℤ) = 2 := rfl
        omega)]
      rfl
    · rw [if_neg hM2]
      by_cases hMz : max_total_points ⟨10, 5, 20⟩
          [(⟨0, 0, 0, 0, 0⟩ : WorkingPoint), ⟨b, 0, 0, 6371000 * radians b, 2⟩] ≤ 0
      · rw [if_pos hMz, if_neg (by rw [← hMdef]; omega)]
        rfl
      · have hM1 : max_total_points ⟨10, 5, 20⟩
            [(⟨0, 0, 0, 0, 0⟩ : WorkingPoint), ⟨b, 0, 0, 6371000 * radians b, 2⟩] = 1 := by
          have : (([(⟨0, 0, 0, 0, 0⟩ : WorkingPoint),
            ⟨b, 0, 0, 6371000 * radians b, 2⟩] : List WorkingPoint).length : ℤ) = 2 := rfl
          omega
        rw [if_neg hMz]
        have hsampled : density_sampled ⟨10, 5, 20⟩
            [(⟨0, 0, 0, 0, 0⟩ : WorkingPoint), ⟨b, 0, 0, 6371000 * radians b, 2⟩] =
            [⟨0, 0, 0, 0, 0⟩] := by
          unfold density_sampled
          rw [hM1]
          show List.filterMap _ (List.range 1) = _
          have hr1 : List.range 1 = [0] := rfl
          rw [hr1, List.filterMap_cons, List.filterMap_nil]
          have hz : ((0 : ℕ) : ℝ) * density_step ⟨10, 5, 20⟩
              [(⟨0, 0, 0, 0, 0⟩ : WorkingPoint),
                ⟨b, 0, 0, 6371000 * radians b, 2⟩] = 0 := by
            simp
          rw [hz, pyint_zero, if_pos (by norm_num)]
          rfl
        rw [hsampled, if_pos (by
          show (⟨0, 0, 0, 0, 0⟩ : WorkingPoint) ≠
            ([(⟨0, 0, 0, 0, 0⟩ : WorkingPoint),
              ⟨b, 0, 0, 6371000 * radians b, 2⟩]).getLastI
          exact hq02), if_pos (by rw [← hMdef, hM1])]
        rfl
  · rw [if_neg h5, if_neg h5]
    unfold ensure_minimum_density
    rw [if_pos (by simp)]
    rfl

end Optimizer

/-! ### Claim theorems -/

/-- Claim C10: both haversine implementations (`GPXOptimizer._haversine_distance`
and `gpx_processor.haversine_distance`) are symmetric in their two points,
return 0 on coinciding coordinates, and never return a negative value. -/
theorem C10_haversine_properties (lat1 lon1 lat2 lon2 : ℝ) :
    Optimizer.haversine_distance lat1 lon1 lat2 lon2 =
      Optimizer.haversine_distance lat2 lon2 lat1 lon1 ∧
    Processor.haversine_distance lat1 lon1 lat2 lon2 =
      Processor.haversine_distance lat2 lon2 lat1 lon1 ∧
    Optimizer.haversine_distance lat1 lon1 lat1 lon1 = 0 ∧
    Processor.haversine_distance lat1 lon1 lat1 lon1 = 0 ∧
    0 ≤ Optimizer.haversine_distance lat1 lon1 lat2 lon2 ∧
    0 ≤ Processor.haversine_distance lat1 lon1 lat2 lon2 :=
  ⟨Optimizer.haversine_symm lat1 lon1 lat2 lon2,
    Processor.proc_haversine_symm lat1 lon1 lat2 lon2,
    Optimizer.haversine_self lat1 lon1,
    Processor.proc_haversine_self lat1 lon1,
    Optimizer.haversine_nonneg lat1 lon1 lat2 lon2,
    Processor.proc_haversine_nonneg lat1 lon1 lat2 lon2⟩

/-- Claim C4 counterexample: the bearing computed by
`GPXOptimizer._calculate_bearing` from (0,0) to the point one degree due
west of it is -90, which is not in the claimed interval [0,360). -/
theorem C4_counterexample_bearing_negative :
    Optimizer.calculate_bearing ⟨0, 0, 0, 0, 0⟩ ⟨0, -1, 0, 0, 1⟩ = -90 ∧
    ¬ (0 ≤ Optimizer.calculate_bearing ⟨0, 0, 0, 0, 0⟩ ⟨0, -1, 0, 0, 1⟩) := by
  have hpi := Real.pi_pos
  have hkey : Optimizer.calculate_bearing ⟨0, 0, 0, 0, 0⟩ ⟨0, -1, 0, 0, 1⟩ = -90 := by
    rw [Optimizer.calculate_bearing_def]
    simp only
    have hr0 : radians 0 = 0 := by simp [radians]
    have hneg : radians (-1 - 0) = -(Real.pi / 180) := by
      unfold radians
      ring
    rw [hr0, hneg]
    have hy : Real.sin (-(Real.pi / 180)) * Real.cos 0 = -Real.sin (Real.pi / 180) := by
      rw [Real.sin_neg, Real.cos_zero]
      ring
    have hx : Real.cos 0 * Real.sin 0 - Real.sin 0 * Real.cos 0 *
        Real.cos (-(Real.pi / 180)) = 0 := by
      rw [Real.sin_zero, Real.cos_zero]
      ring
    rw [hy, hx]
    have hsinpos : 0 < Real.sin (Real.pi / 180) := by
      apply Real.sin_pos_of_pos_of_lt_pi
      · positivity
      · exact div_lt_self hpi (by norm_num)
    have hat : atan2 (-Real.sin (Real.pi / 180)) 0 = -(Real.pi / 2) := by
      unfold atan2
      rw [if_neg (lt_irrefl 0), if_neg (lt_irrefl 0), if_neg (by linarith),
        if_pos (by linarith)]
    rw [hat]
    unfold degrees
    field_simp
    ring
  exact ⟨hkey, by rw [hkey]; norm_num⟩

/-- Claim C4 (amended): `_calculate_bearing` returns `math.degrees(atan2(...))`
without normalization, so its value lies in the interval (-180, 180] rather
than [0, 360). -/
theorem C4_bearing_range (p1 p2 : WorkingPoint) :
    -180 < Optimizer.calculate_bearing p1 p2 ∧
    Optimizer.calculate_bearing p1 p2 ≤ 180 := by
  have hpi := Real.pi_pos
  rw [Optimizer.calculate_bearing_def]
  set θ := atan2
    (Real.sin (radians (p2.longitude - p1.longitude)) * Real.cos (radians p2.latitude))
    (Real.cos (radians p1.latitude) * Real.sin (radians p2.latitude) -
      Real.sin (radians p1.latitude) * Real.cos (radians p2.latitude) *
        Real.cos (radians (p2.longitude - p1.longitude))) with hθ
  have h1 : -Real.pi < θ := neg_pi_lt_atan2 _ _
  have h2 : θ ≤ Real.pi := atan2_le_pi _ _
  unfold degrees
  have epos : Real.pi * 180 / Real.pi = 180 := by
    rw [mul_comm, mul_div_assoc, div_self hpi.ne', mul_one]
  have eneg : -Real.pi * 180 / Real.pi = -180 := by
    rw [neg_mul, neg_div, epos]
  constructor
  · rw [← eneg]
    exact (div_lt_div_iff_of_pos_right hpi).mpr (by nlinarith)
  · rw [← epos]
    exact (div_le_div_iff_of_pos_right hpi).mpr (by nlinarith)

/-- Claim C8: empty and singleton inputs are not errors: the statistics are
all zero (for every sequence of length below 2) and `optimize_track` returns
the input converted unchanged. -/
theorem C8_empty_singleton (self : GPXOptimizer) (p : RawPoint) :
    Processor.calculate_route_statistics [] = ⟨0, 0, 0⟩ ∧
    Processor.calculate_route_statistics [p] = ⟨0, 0, 0⟩ ∧
    (∀ pts : List RawPoint, pts.length < 2 →
      Processor.calculate_route_statistics pts = ⟨0, 0, 0⟩) ∧
    Optimizer.optimize_track self [] = some [] ∧
    Optimizer.optimize_track self [p] = some [⟨p.latitude, p.longitude, p.elevation, 0⟩] := by
  refine ⟨rfl, ?_, ?_, ?_, ?_⟩
  · unfold Processor.calculate_route_statistics
    rw [if_pos (by simp)]
  · intro pts h
    unfold Processor.calculate_route_statistics
    rw [if_pos h]
  · unfold Optimizer.optimize_track
    rw [if_pos (by simp)]
    rfl
  · unfold Optimizer.optimize_track
    rw [if_pos (by simp)]
    rfl

/-- Concrete instance of C8 at a one-point track. -/
theorem C8_empty_singleton_witness :
    Processor.calculate_route_statistics [⟨1, 2, 3⟩] = ⟨0, 0, 0⟩ ∧
    Optimizer.optimize_track ⟨10, 5, 20⟩ [⟨1, 2, 3⟩] = some [⟨1, 2, 3, 0⟩] := by
  have h := C8_empty_singleton ⟨10, 5, 20⟩ ⟨1, 2, 3⟩
  exact ⟨h.2.2.1 [⟨1, 2, 3⟩] (by simp), h.2.2.2.2⟩

/-- Claim C5: a zero-length chord (first and last point of a Douglas-Peucker
interval share coordinates) gives perpendicular distance 0 for every point,
and the simplifier collapses the interval to its (coinciding) endpoints. -/
theorem C5_zero_length_chord (points : List WorkingPoint) (tol : ℝ)
    (h2 : 2 ≤ points.length) (htol : 0 ≤ tol)
    (hlat : points.headI.latitude = points.getLastI.latitude)
    (hlng : points.headI.longitude = points.getLastI.longitude) :
    (∀ q : WorkingPoint,
      Optimizer.perpendicular_distance q points.headI points.getLastI = 0) ∧
    Optimizer.douglas_peucker points tol = [points.headI, points.getLastI] ∧
    ∀ r ∈ Optimizer.douglas_peucker points tol,
      r.latitude = points.headI.latitude ∧ r.longitude = points.headI.longitude := by
  have hperp : ∀ q : WorkingPoint,
      Optimizer.perpendicular_distance q points.headI points.getLastI = 0 :=
    fun q => Optimizer.perpendicular_distance_degenerate q _ _ hlat hlng
  have hdp := Optimizer.douglas_peucker_all_zero points tol h2 htol
    (fun i _ _ => hperp _)
  refine ⟨hperp, hdp, ?_⟩
  intro r hr
  rw [hdp] at hr
  rcases List.mem_cons.mp hr with hr' | hr'
  · rw [hr']
    exact ⟨rfl, rfl⟩
  · rw [List.mem_singleton.mp hr']
    exact ⟨hlat.symm, hlng.symm⟩

/-- Concrete instance of C5: three points whose chord endpoints coincide. -/
theorem C5_zero_length_chord_witness :
    Optimizer.perpendicular_distance ⟨1, 1, 5, 100, 1⟩ ⟨0, 0, 0, 0, 0⟩ ⟨0, 0, 0, 200, 2⟩
      = 0 ∧
    Optimizer.douglas_peucker
      [⟨0, 0, 0, 0, 0⟩, ⟨1, 1, 5, 100, 1⟩, ⟨0, 0, 0, 200, 2⟩] 10 =
      [⟨0, 0, 0, 0, 0⟩, ⟨0, 0, 0, 200, 2⟩] := by
  have h := C5_zero_length_chord
    [⟨0, 0, 0, 0, 0⟩, ⟨1, 1, 5, 100, 1⟩, ⟨0, 0, 0, 200, 2⟩] 10
    (by simp) (by norm_num) rfl rfl
  exact ⟨h.1 ⟨1, 1, 5, 100, 1⟩, h.2.1⟩

/-- Claim C9: every point returned by `optimize_track` carries the latitude,
longitude and elevation of some input point: the stages only select existing
points, never synthesize or mutate coordinates. -/
theorem C9_points_from_input (self : GPXOptimizer) (pts : List RawPoint)
    (out : List TrackPoint) (h : Optimizer.optimize_track self pts = some out) :
    ∀ q ∈ out, ∃ p ∈ pts, q.latitude = p.latitude ∧ q.longitude = p.longitude ∧
      q.elevation = p.elevation := by
  intro q hq
  by_cases h3 : pts.length < 3
  · unfold Optimizer.optimize_track at h
    rw [if_pos h3] at h
    have hout : out = Optimizer.convert_raw_to_track_points pts :=
      (Option.some_injective _ h).symm
    rw [hout] at hq
    unfold Optimizer.convert_raw_to_track_points at hq
    obtain ⟨p, hp, hpq⟩ := List.mem_map.mp hq
    exact ⟨p, hp, by rw [← hpq], by rw [← hpq], by rw [← hpq]⟩
  · obtain ⟨out', hens, hmap⟩ := Optimizer.optimize_track_main_inv self pts out h3 h
    rw [hmap] at hq
    unfold Optimizer.convert_to_track_points at hq
    obtain ⟨q', hq', hqq⟩ := List.mem_map.mp hq
    have hprops := Optimizer.ensure_minimum_density_props self _ out' hens
      (Optimizer.elevation_preserved_stage_pairwise self pts)
    have hq2 : q' ∈ Optimizer.elevation_preserved_stage self pts := hprops.1 q' hq'
    have hq3 : q' ∈ Optimizer.add_distance_data pts :=
      Optimizer.elevation_preserved_stage_mem self pts q' hq2
    obtain ⟨p, hp, hlat, hlng, helev⟩ := Optimizer.add_distance_data_mem pts q' hq3
    exact ⟨p, hp, by rw [← hqq]; exact hlat, by rw [← hqq]; exact hlng,
      by rw [← hqq]; exact helev⟩

/-- Concrete instance of C9 at a one-point track. -/
theorem C9_points_from_input_witness :
    ∃ p ∈ [(⟨1, 2, 3⟩ : RawPoint)],
      (⟨1, 2, 3, 0⟩ : TrackPoint).latitude = p.latitude ∧
      (⟨1, 2, 3, 0⟩ : TrackPoint).longitude = p.longitude ∧
      (⟨1, 2, 3, 0⟩ : TrackPoint).elevation = p.elevation := by
  have h := C9_points_from_input ⟨10, 5, 20⟩ [⟨1, 2, 3⟩] [⟨1, 2, 3, 0⟩]
    (by unfold Optimizer.optimize_track
        rw [if_pos (by simp)]
        rfl)
  exact h ⟨1, 2, 3, 0⟩ (by simp)

/-- Claim C6: the `distance_from_start` values of the `optimize_track` output
are monotonically non-decreasing; the cumulative distance annotation of
`_add_distance_data` is itself non-decreasing, and on the pipeline path every
output point carries an unchanged annotation from `_add_distance_data`
(distances are never recomputed by later stages). -/
theorem C6_monotonic_distance (self : GPXOptimizer) (pts : List RawPoint)
    (out : List TrackPoint) (h : Optimizer.optimize_track self pts = some out) :
    (∀ i, i + 1 < out.length →
      (out.getD i default).distance_from_start ≤
        (out.getD (i + 1) default).distance_from_start) ∧
    (Optimizer.add_distance_data pts).Pairwise
      (fun a b => a.distance_from_start ≤ b.distance_from_start) ∧
    (3 ≤ pts.length → ∀ q ∈ out, ∃ p ∈ Optimizer.add_distance_data pts,
      q.latitude = p.latitude ∧ q.longitude = p.longitude ∧
      q.elevation = p.elevation ∧
      q.distance_from_start = p.distance_from_start) := by
  have hpairout : out.Pairwise
      (fun a b : TrackPoint => a.distance_from_start ≤ b.distance_from_start) := by
    by_cases h3 : pts.length < 3
    · unfold Optimizer.optimize_track at h
      rw [if_pos h3] at h
      have hout : out = Optimizer.convert_raw_to_track_points pts :=
        (Option.some_injective _ h).symm
      rw [hout]
      unfold Optimizer.convert_raw_to_track_points
      rw [List.pairwise_map]
      refine List.pairwise_iff_getElem.mpr ?_
      intro i j hi hj hij
      simp
    · obtain ⟨out', hens, hmap⟩ := Optimizer.optimize_track_main_inv self pts out h3 h
      have hprops := Optimizer.ensure_minimum_density_props self _ out' hens
        (Optimizer.elevation_preserved_stage_pairwise self pts)
      rw [hmap]
      unfold Optimizer.convert_to_track_points
      rw [List.pairwise_map]
      exact hprops.2.1
  refine ⟨?_, Optimizer.add_distance_data_pairwise pts, ?_⟩
  · intro i hi
    have hi' : i < out.length := by omega
    rw [List.getD_eq_getElem out default hi', List.getD_eq_getElem out default hi]
    exact (List.pairwise_iff_getElem.mp hpairout) i (i + 1) hi' hi (by omega)
  · intro h3 q hq
    obtain ⟨out', hens, hmap⟩ := Optimizer.optimize_track_main_inv self pts out
      (by omega) h
    have hprops := Optimizer.ensure_minimum_density_props self _ out' hens
      (Optimizer.elevation_preserved_stage_pairwise self pts)
    rw [hmap] at hq
    unfold Optimizer.convert_to_track_points at hq
    obtain ⟨q', hq', hqq⟩ := List.mem_map.mp hq
    have hq3 : q' ∈ Optimizer.add_distance_data pts :=
      Optimizer.elevation_preserved_stage_mem self pts q' (hprops.1 q' hq')
    exact ⟨q', hq3, by rw [← hqq], by rw [← hqq], by rw [← hqq], by rw [← hqq]⟩

/-- Claim C1: the pipeline is not total.  On this well-formed three-point
track (about 40 m long, points about 20 m apart) every stage runs, the merged
sequence keeps 2 points, `int(total_distance_km * max_points_per_km) = 0`,
and `_ensure_minimum_density` performs `len(points) / 0`: `optimize_track`
raises `ZeroDivisionError` (modelled as `none`) instead of returning. -/
theorem C1_optimizer_division_by_zero :
    Optimizer.optimize_track ⟨10, 5, 20⟩
      [⟨0, 0, 0⟩, ⟨9 / 50000, 0, 0⟩, ⟨9 / 25000, 0, 0⟩] = none := by
  have hpi3 := Real.pi_gt_three
  have hpi315 := Real.pi_lt_315
  rw [Optimizer.optimize_track_three_meridian (9 / 50000) (9 / 25000) 0
    (by norm_num) (by norm_num) (by norm_num)]
  rw [if_pos (by unfold radians; nlinarith), if_neg]
  intro hcon
  rw [Optimizer.pyint_nonneg_eq_floor (by unfold radians; positivity)] at hcon
  have hlt1 : 6371000 * radians (9 / 25000) / 1000 * 20 < 1 := by
    unfold radians
    nlinarith
  have := Int.floor_eq_zero_iff.mpr ⟨by unfold radians; positivity, hlt1⟩
  omega

/-- Claim C2 counterexample: on a three-point single-meridian track whose
middle point is 50 m above both neighbors, `optimize_track` with the default
configuration (elevation tolerance 5) drops the middle point: the window
`min(5, 3 // 10)` is empty, so the spike is not re-inserted after
Douglas-Peucker removes it as collinear. -/
theorem C2_counterexample_spike_dropped :
    Optimizer.optimize_track ⟨10, 5, 20⟩ [⟨0, 0, 0⟩, ⟨30, 0, 50⟩, ⟨60, 0, 0⟩] =
      some [⟨0, 0, 0, 0⟩, ⟨60, 0, 0, 6371000 * radians 60⟩] ∧
    ∀ q ∈ [(⟨0, 0, 0, 0⟩ : TrackPoint), ⟨60, 0, 0, 6371000 * radians 60⟩],
      ¬ (q.latitude = 30 ∧ q.elevation = 50) := by
  have hpi3 := Real.pi_gt_three
  constructor
  · rw [Optimizer.optimize_track_three_meridian 30 60 50
      (by norm_num) (by norm_num) (by norm_num)]
    rw [if_pos (by unfold radians; nlinarith), if_pos]
    rw [Optimizer.pyint_nonneg_eq_floor (by unfold radians; positivity)]
    have h1 : ((1 : ℤ) : ℝ) ≤ 6371000 * radians 60 / 1000 * 20 := by
      unfold radians
      push_cast
      nlinarith
    have := Int.le_floor.mpr h1
    omega
  · intro q hq
    rcases List.mem_cons.mp hq with rfl | hq
    · intro hc
      norm_num at hc
    rcases List.mem_cons.mp hq with rfl | hq
    · intro hc
      norm_num at hc
    · simp at hq

/-- Claim C3 counterexample: on a three-point track whose points lie within
about 2 m of each other, the 5 m dedup pass of
`_preserve_elevation_features` drops the terminal point, so the last output
point has the coordinates of the first input point, not the last one. -/
theorem C3_counterexample_terminal_dropped :
    Optimizer.optimize_track ⟨10, 5, 20⟩
      [⟨0, 0, 0⟩, ⟨1 / 100000, 0, 0⟩, ⟨1 / 50000, 0, 0⟩] = some [⟨0, 0, 0, 0⟩] ∧
    ([(⟨0, 0, 0, 0⟩ : TrackPoint)]).getLastI.latitude ≠
      ([(⟨0, 0, 0⟩ : RawPoint), ⟨1 / 100000, 0, 0⟩,
        ⟨1 / 50000, 0, 0⟩]).getLastI.latitude := by
  have hpi315 := Real.pi_lt_315
  have hpi0 := Real.pi_pos
  constructor
  · rw [Optimizer.optimize_track_three_meridian (1 / 100000) (1 / 50000) 0
      (by norm_num) (by norm_num) (by norm_num)]
    rw [if_neg]
    intro hcon
    unfold radians at hcon
    nlinarith
  · show (0 : ℝ) ≠ (1 / 50000 : ℝ)
    norm_num

/-- Claim C7 counterexample: a two-point track 20 m long takes the
`len(track_points) < 3` shortcut and returns both points, but
`floor(D * M) + 1 = 1`, so the claimed bound fails. -/
theorem C7_counterexample_density_bound :
    Optimizer.optimize_track ⟨10, 5, 20⟩ [⟨0, 0, 0⟩, ⟨9 / 50000, 0, 0⟩] =
      some [⟨0, 0, 0, 0⟩, ⟨9 / 50000, 0, 0, 0⟩] ∧
    ¬ ((([(⟨0, 0, 0, 0⟩ : TrackPoint), ⟨9 / 50000, 0, 0, 0⟩] :
        List TrackPoint).length : ℤ) ≤
      ⌊(Optimizer.add_distance_data
          [⟨0, 0, 0⟩, ⟨9 / 50000, 0, 0⟩]).getLastI.distance_from_start / 1000 *
        (20 : ℕ)⌋ + 1) := by
  have hpi3 := Real.pi_gt_three
  have hpi315 := Real.pi_lt_315
  constructor
  · unfold Optimizer.optimize_track
    rw [if_pos (by simp)]
    rfl
  · have hhav : Optimizer.haversine_distance 0 0 (9 / 50000) 0 =
        6371000 * radians (9 / 50000) := by
      have := Optimizer.haversine_meridian 0 (9 / 50000) 0 (by norm_num) (by norm_num)
      simpa using this
    have hproc : Optimizer.add_distance_data
        [(⟨0, 0, 0⟩ : RawPoint), ⟨9 / 50000, 0, 0⟩] =
        [⟨0, 0, 0, 0, 0⟩, ⟨9 / 50000, 0, 0, 6371000 * radians (9 / 50000), 1⟩] := by
      simp [Optimizer.add_distance_data, Optimizer.add_distance_data_aux, hhav]
    rw [hproc]
    have hgl : ([(⟨0, 0, 0, 0, 0⟩ : WorkingPoint),
        ⟨9 / 50000, 0, 0, 6371000 * radians (9 / 50000), 1⟩] :
        List WorkingPoint).getLastI =
        ⟨9 / 50000, 0, 0, 6371000 * radians (9 / 50000), 1⟩ := rfl
    rw [hgl]
    intro hcon
    have hlt1 : 6371000 * radians (9 / 50000) / 1000 * ((20 : ℕ) : ℝ) < 1 := by
      unfold radians
      push_cast
      nlinarith
    have h0 : (0:ℝ) ≤ 6371000 * radians (9 / 50000) / 1000 * ((20 : ℕ) : ℝ) := by
      unfold radians
      positivity
    have hfl := Int.floor_eq_zero_iff.mpr
      ⟨by
        show (0:ℝ) ≤ (⟨9 / 50000, 0, 0, 6371000 * radians (9 / 50000), 1⟩ :
          WorkingPoint).distance_from_start / 1000 * ((20 : ℕ) : ℝ)
        exact h0,
      by
        show (⟨9 / 50000, 0, 0, 6371000 * radians (9 / 50000), 1⟩ :
          WorkingPoint).distance_from_start / 1000 * ((20 : ℕ) : ℝ) < 1
        exact hlt1⟩
    rw [hfl] at hcon
    have hlen : (([(⟨0, 0, 0, 0⟩ : TrackPoint), ⟨9 / 50000, 0, 0, 0⟩] :
        List TrackPoint).length : ℤ) = 2 := rfl
    omega

/-- Claim C7 (amended): for inputs of at least 3 points, when `optimize_track`
returns, its output length is at most `floor(D_km * M) + 1` and its last
element is the last element of the density capper's input (the merged
sequence) — not necessarily the track's terminal point. -/
theorem C7_density_bound (self : GPXOptimizer) (pts : List RawPoint)
    (out : List TrackPoint) (h3 : 3 ≤ pts.length)
    (h : Optimizer.optimize_track self pts = some out) :
    (out.length : ℤ) ≤
      ⌊(Optimizer.add_distance_data pts).getLastI.distance_from_start / 1000 *
        (self.max_points_per_km : ℝ)⌋ + 1 ∧
    out.getLastI.latitude =
      (Optimizer.elevation_preserved_stage self pts).getLastI.latitude ∧
    out.getLastI.longitude =
      (Optimizer.elevation_preserved_stage self pts).getLastI.longitude ∧
    out.getLastI.elevation =
      (Optimizer.elevation_preserved_stage self pts).getLastI.elevation ∧
    out.getLastI.distance_from_start =
      (Optimizer.elevation_preserved_stage self pts).getLastI.distance_from_start := by
  obtain ⟨out', hens, hmap⟩ := Optimizer.optimize_track_main_inv self pts out (by omega) h
  have hstage_ne : Optimizer.elevation_preserved_stage self pts ≠ [] :=
    (Optimizer.elevation_preserved_stage_head self pts h3).1
  have hprops := Optimizer.ensure_minimum_density_props self
    (Optimizer.elevation_preserved_stage self pts) out' hens
    (Optimizer.elevation_preserved_stage_pairwise self pts)
  have hout'ne : out' ≠ [] := (hprops.2.2.1 hstage_ne).1
  have hlastw : out'.getLastI = (Optimizer.elevation_preserved_stage self pts).getLastI :=
    (hprops.2.2.1 hstage_ne).2.2
  have hpart2 : out.getLastI = (fun p : WorkingPoint =>
      (⟨p.latitude, p.longitude, p.elevation, p.distance_from_start⟩ : TrackPoint))
      (Optimizer.elevation_preserved_stage self pts).getLastI := by
    rw [hmap]
    unfold Optimizer.convert_to_track_points
    rw [Optimizer.getLastI_map _ _ hout'ne, hlastw]
  have hplen : (Optimizer.add_distance_data pts).length = pts.length :=
    Optimizer.add_distance_data_length pts
  have hpne : Optimizer.add_distance_data pts ≠ [] := by
    intro hc
    rw [hc] at hplen
    simp at hplen
    omega
  have hD0 : (0:ℝ) ≤ (Optimizer.add_distance_data pts).getLastI.distance_from_start :=
    Optimizer.add_distance_data_dist_nonneg pts _ (getLastI_mem hpne)
  have hfl0 : (0:ℤ) ≤ ⌊(Optimizer.add_distance_data pts).getLastI.distance_from_start /
      1000 * (self.max_points_per_km : ℝ)⌋ :=
    Int.floor_nonneg.mpr (by positivity)
  have hkey : Optimizer.max_total_points self (Optimizer.elevation_preserved_stage self pts)
      ≤ ⌊(Optimizer.add_distance_data pts).getLastI.distance_from_start / 1000 *
        (self.max_points_per_km : ℝ)⌋ := by
    unfold Optimizer.max_total_points
    have hmem : (Optimizer.elevation_preserved_stage self pts).getLastI ∈
        Optimizer.add_distance_data pts :=
      Optimizer.elevation_preserved_stage_mem self pts _ (getLastI_mem hstage_ne)
    have hle : (Optimizer.elevation_preserved_stage self pts).getLastI.distance_from_start ≤
        (Optimizer.add_distance_data pts).getLastI.distance_from_start :=
      Optimizer.pairwise_dist_le_getLastI _ (Optimizer.add_distance_data_pairwise pts) _ hmem
    have h0 : (0:ℝ) ≤
        (Optimizer.elevation_preserved_stage self pts).getLastI.distance_from_start :=
      Optimizer.add_distance_data_dist_nonneg pts _ hmem
    calc pyint ((Optimizer.elevation_preserved_stage self pts).getLastI.distance_from_start
          / 1000 * (self.max_points_per_km : ℝ))
        ≤ pyint ((Optimizer.add_distance_data pts).getLastI.distance_from_start / 1000 *
          (self.max_points_per_km : ℝ)) := by
          apply Optimizer.pyint_mono (by positivity)
          have hdiv : (Optimizer.elevation_preserved_stage self pts).getLastI.distance_from_start
              / 1000 ≤ (Optimizer.add_distance_data pts).getLastI.distance_from_start / 1000 := by
            linarith
          exact mul_le_mul_of_nonneg_right hdiv (by positivity)
    _ = ⌊(Optimizer.add_distance_data pts).getLastI.distance_from_start / 1000 *
          (self.max_points_per_km : ℝ)⌋ :=
        Optimizer.pyint_nonneg_eq_floor (by positivity)
  have hlen_eq : out.length = out'.length := by
    rw [hmap]
    exact List.length_map _ _
  refine ⟨?_, by rw [hpart2], by rw [hpart2], by rw [hpart2], by rw [hpart2]⟩
  rcases Optimizer.ensure_minimum_density_cases self _ out' hens with
    ⟨hout_eq, hcase⟩ | ⟨_, hmt1, _, hbr⟩
  · rcases hcase with hlt2 | hle
    · have hsmall : out'.length < 2 := by
        rw [hout_eq]
        exact hlt2
      omega
    · have hb : (out'.length : ℤ) ≤
          Optimizer.max_total_points self (Optimizer.elevation_preserved_stage self pts) := by
        rw [hout_eq]
        exact hle
      omega
  · have hsl := Optimizer.density_sampled_length_le self
      (Optimizer.elevation_preserved_stage self pts)
    have htn : ((Optimizer.max_total_points self
        (Optimizer.elevation_preserved_stage self pts)).toNat : ℤ) =
        Optimizer.max_total_points self (Optimizer.elevation_preserved_stage self pts) :=
      Int.toNat_of_nonneg (by omega)
    rcases hbr with hout_eq | ⟨hout_eq, _⟩
    · have : out'.length = (Optimizer.density_sampled self
          (Optimizer.elevation_preserved_stage self pts)).length + 1 := by
        rw [hout_eq]
        simp
      omega
    · have : out'.length = (Optimizer.density_sampled self
          (Optimizer.elevation_preserved_stage self pts)).length := by
        rw [hout_eq]
      omega

/-- Concrete instance of C7 at a three-point meridian track. -/
theorem C7_density_bound_witness :
    ((([(⟨0, 0, 0, 0⟩ : TrackPoint), ⟨60, 0, 0, 6371000 * radians 60⟩] :
        List TrackPoint).length : ℤ) ≤
      ⌊(Optimizer.add_distance_data
          [⟨0, 0, 0⟩, ⟨30, 0, 0⟩, ⟨60, 0, 0⟩]).getLastI.distance_from_start / 1000 *
        (((⟨10, 5, 20⟩ : GPXOptimizer).max_points_per_km : ℕ) : ℝ)⌋ + 1) := by
  have hpi3 := Real.pi_gt_three
  have h := C7_density_bound ⟨10, 5, 20⟩ [⟨0, 0, 0⟩, ⟨30, 0, 0⟩, ⟨60, 0, 0⟩]
    [⟨0, 0, 0, 0⟩, ⟨60, 0, 0, 6371000 * radians 60⟩] (by simp)
    (by
      rw [Optimizer.optimize_track_three_meridian 30 60 0
        (by norm_num) (by norm_num) (by norm_num)]
      rw [if_pos (by unfold radians; nlinarith), if_pos]
      rw [Optimizer.pyint_nonneg_eq_floor (by unfold radians; positivity)]
      have h1 : ((1 : ℤ) : ℝ) ≤ 6371000 * radians 60 / 1000 * 20 := by
        unfold radians
        push_cast
        nlinarith
      have := Int.le_floor.mpr h1
      omega)
  exact h.1

/-- Claim C3 (amended): the first output point always carries the first input
point's coordinates; the last output point carries the last input point's
coordinates provided the last annotated point strictly dominates every other
point's cumulative distance and is more than 5 m from every other annotated
point (so the dedup pass keeps it). -/
theorem C3_endpoint_preservation (self : GPXOptimizer) (pts : List RawPoint)
    (out : List TrackPoint) (hne : pts ≠ [])
    (h : Optimizer.optimize_track self pts = some out) :
    out ≠ [] ∧
    out.headI.latitude = pts.headI.latitude ∧
    out.headI.longitude = pts.headI.longitude ∧
    ((∀ q ∈ Optimizer.add_distance_data pts,
        q ≠ (Optimizer.add_distance_data pts).getLastI →
        q.distance_from_start <
          (Optimizer.add_distance_data pts).getLastI.distance_from_start ∧
        5 < Optimizer.haversine_distance q.latitude q.longitude
          (Optimizer.add_distance_data pts).getLastI.latitude
          (Optimizer.add_distance_data pts).getLastI.longitude) →
      out.getLastI.latitude = pts.getLastI.latitude ∧
      out.getLastI.longitude = pts.getLastI.longitude) := by
  by_cases h3 : pts.length < 3
  · unfold Optimizer.optimize_track at h
    rw [if_pos h3] at h
    have hout : out = Optimizer.convert_raw_to_track_points pts :=
      (Option.some_injective _ h).symm
    unfold Optimizer.convert_raw_to_track_points at hout
    have houtne : out ≠ [] := by
      rw [hout]
      simpa using hne
    refine ⟨houtne, ?_, ?_, fun _ => ⟨?_, ?_⟩⟩
    · rw [hout, Optimizer.headI_map _ _ hne]
    · rw [hout, Optimizer.headI_map _ _ hne]
    · rw [hout, Optimizer.getLastI_map _ _ hne]
    · rw [hout, Optimizer.getLastI_map _ _ hne]
  · have h3' : 3 ≤ pts.length := by omega
    obtain ⟨out', hens, hmap⟩ := Optimizer.optimize_track_main_inv self pts out h3 h
    have hstage := Optimizer.elevation_preserved_stage_head self pts h3'
    have hprops := Optimizer.ensure_minimum_density_props self
      (Optimizer.elevation_preserved_stage self pts) out' hens
      (Optimizer.elevation_preserved_stage_pairwise self pts)
    have hband := hprops.2.2.1 hstage.1
    have hout'ne : out' ≠ [] := hband.1
    have houtne : out ≠ [] := by
      rw [hmap]
      unfold Optimizer.convert_to_track_points
      simpa using hout'ne
    have hplen : (Optimizer.add_distance_data pts).length = pts.length :=
      Optimizer.add_distance_data_length pts
    have hpne : Optimizer.add_distance_data pts ≠ [] := by
      intro hc
      rw [hc] at hplen
      simp at hplen
      omega
    have hlen0 : 0 < pts.length := by omega
    have hhead_fields := Optimizer.add_distance_data_getElem pts 0 hlen0
    have hgd0 : (Optimizer.add_distance_data pts).getD 0 default =
        (Optimizer.add_distance_data pts).headI := Optimizer.headI_eq_getD _ hpne
    have hpts0 : pts[0] = pts.headI := by
      rw [← List.getD_eq_getElem pts default hlen0]
      exact Optimizer.headI_eq_getD pts hne
    have hohead : out.headI = (fun p : WorkingPoint =>
        (⟨p.latitude, p.longitude, p.elevation, p.distance_from_start⟩ : TrackPoint))
        (Optimizer.add_distance_data pts).headI := by
      rw [hmap]
      unfold Optimizer.convert_to_track_points
      rw [Optimizer.headI_map _ _ hout'ne, hband.2.1, hstage.2]
    refine ⟨houtne, ?_, ?_, ?_⟩
    · rw [hohead]
      show (Optimizer.add_distance_data pts).headI.latitude = pts.headI.latitude
      rw [← hgd0, ← hpts0]
      exact hhead_fields.1
    · rw [hohead]
      show (Optimizer.add_distance_data pts).headI.longitude = pts.headI.longitude
      rw [← hgd0, ← hpts0]
      exact hhead_fields.2.1
    · intro hcond
      have hlast := Optimizer.elevation_preserved_stage_getLastI self pts h3'
        (fun q hq hqne => (hcond q hq hqne).1)
        (fun q hq hqne => (hcond q hq hqne).2)
      have holast : out.getLastI = (fun p : WorkingPoint =>
          (⟨p.latitude, p.longitude, p.elevation, p.distance_from_start⟩ : TrackPoint))
          (Optimizer.add_distance_data pts).getLastI := by
        rw [hmap]
        unfold Optimizer.convert_to_track_points
        rw [Optimizer.getLastI_map _ _ hout'ne, hband.2.2, hlast]
      have hlast_fields := Optimizer.add_distance_data_getElem pts (pts.length - 1)
        (by omega)
      have hgdl : (Optimizer.add_distance_data pts).getD (pts.length - 1) default =
          (Optimizer.add_distance_data pts).getLastI := by
        rw [Optimizer.getLastI_eq_getD _ hpne, hplen]
      have hptsl : pts[pts.length - 1] = pts.getLastI := by
        rw [← List.getD_eq_getElem pts default (by omega)]
        exact (Optimizer.getLastI_eq_getD pts hne).symm
      constructor
      · rw [holast]
        show (Optimizer.add_distance_data pts).getLastI.latitude = pts.getLastI.latitude
        rw [← hgdl, ← hptsl]
        exact hlast_fields.1
      · rw [holast]
        show (Optimizer.add_distance_data pts).getLastI.longitude = pts.getLastI.longitude
        rw [← hgdl, ← hptsl]
        exact hlast_fields.2.1

/-- Concrete instance of C3 at a one-point track. -/
theorem C3_endpoint_preservation_witness :
    ([(⟨1, 2, 3, 0⟩ : TrackPoint)] : List TrackPoint) ≠ [] ∧
    ([(⟨1, 2, 3, 0⟩ : TrackPoint)] : List TrackPoint).headI.latitude =
      ([(⟨1, 2, 3⟩ : RawPoint)] : List RawPoint).headI.latitude ∧
    ([(⟨1, 2, 3, 0⟩ : TrackPoint)] : List TrackPoint).getLastI.latitude =
      ([(⟨1, 2, 3⟩ : RawPoint)] : List RawPoint).getLastI.latitude ∧
    ([(⟨1, 2, 3, 0⟩ : TrackPoint)] : List TrackPoint).getLastI.longitude =
      ([(⟨1, 2, 3⟩ : RawPoint)] : List RawPoint).getLastI.longitude := by
  have h := C3_endpoint_preservation ⟨10, 5, 20⟩ [⟨1, 2, 3⟩] [⟨1, 2, 3, 0⟩]
    (by simp)
    (by unfold Optimizer.optimize_track
        rw [if_pos (by simp)]
        rfl)
  have hcond := h.2.2.2 (by
    intro q hq hqne
    have hq1 : q = ⟨1, 2, 3, 0, 0⟩ := by
      have : Optimizer.add_distance_data [(⟨1, 2, 3⟩ : RawPoint)] =
          [⟨1, 2, 3, 0, 0⟩] := rfl
      rw [this] at hq
      simpa using hq
    have hlast1 : (Optimizer.add_distance_data [(⟨1, 2, 3⟩ : RawPoint)]).getLastI =
        ⟨1, 2, 3, 0, 0⟩ := rfl
    rw [hq1, hlast1] at hqne
    exact absurd rfl hqne)
  exact ⟨h.1, h.2.1, hcond.1, hcond.2⟩

open Optimizer in
/-- Claim C2 (amended): on a single-longitude track whose middle point is the
only one with nonzero elevation (a 50 m spike), `optimize_track` with the
default configuration (elevation tolerance 5) retains the middle point — even
though it is geometrically collinear — provided the track has at least 10
points (non-empty peak window), the spike is more than 5 m from the first
point, and its cumulative distance is strictly below the terminal one and at
least 150 m (so the density cap does not bind). -/
theorem C2_elevation_spike_retained (pts : List RawPoint) (m : ℕ) (L : ℝ)
    (hlen : 10 ≤ pts.length) (hm0 : 0 < m) (hmn : m + 1 < pts.length)
    (hlng : ∀ q ∈ pts, q.longitude = L)
    (helev0 : ∀ i, i < pts.length → i ≠ m → (pts.getD i default).elevation = 0)
    (helevm : (pts.getD m default).elevation = 50)
    (hsep : 5 < haversine_distance
      (add_distance_data pts).headI.latitude (add_distance_data pts).headI.longitude
      ((add_distance_data pts).getD m default).latitude
      ((add_distance_data pts).getD m default).longitude)
    (hmid : ((add_distance_data pts).getD m default).distance_from_start <
      (add_distance_data pts).getLastI.distance_from_start)
    (hfar : 150 ≤ ((add_distance_data pts).getD m default).distance_from_start) :
    ∃ out, optimize_track ⟨10, 5, 20⟩ pts = some out ∧
      ∃ q ∈ out, q.latitude = (pts.getD m default).latitude ∧
        q.longitude = (pts.getD m default).longitude ∧ q.elevation = 50 := by
  have hplen : (add_distance_data pts).length = pts.length := add_distance_data_length pts
  have hptsne : pts ≠ [] := by
    intro hc
    rw [hc] at hlen
    simp at hlen
  have hpne : add_distance_data pts ≠ [] := by
    intro hc
    rw [hc] at hplen
    simp at hplen
    omega
  have hmlt : m < pts.length := by omega
  have hmltP : m < (add_distance_data pts).length := by omega
  have hfeat : elevation_features (add_distance_data pts) =
      [(add_distance_data pts).getD m default] := by
    classical
    unfold elevation_features
    apply filter_eq_singleton (add_distance_data_nodup pts) (getD_mem default hmltP)
    intro p hp
    obtain ⟨i, hi, hpi⟩ := List.mem_iff_getElem.mp hp
    have hilt : i < pts.length := by omega
    have hpi' : p = (add_distance_data pts).getD i default := by
      rw [List.getD_eq_getElem _ default hi, hpi]
    have hidx_i : ((add_distance_data pts).getD i default).index = i :=
      (add_distance_data_getElem pts i hilt).2.2.2
    have hidx_m : ((add_distance_data pts).getD m default).index = m :=
      (add_distance_data_getElem pts m hmlt).2.2.2
    have hiff := spike_peak_iff pts m hlen hm0 hmn helev0 helevm i hilt
    constructor
    · intro hPp
      have hpeak : is_elevation_peak_or_valley (add_distance_data pts) p.index :=
        of_decide_eq_true hPp
      rw [hpi', hidx_i] at hpeak
      rw [hpi', hiff.mp hpeak]
    · intro hpeq
      have him : i = m := by
        have hidx := congrArg WorkingPoint.index hpeq
        rw [hpi', hidx_i, hidx_m] at hidx
        exact hidx
      apply decide_eq_true
      rw [hpi', hidx_i]
      exact hiff.mpr him
  have hd0 : (add_distance_data pts).headI.distance_from_start = 0 :=
    add_distance_data_headI_dist pts hptsne
  have hdm0 : (0:ℝ) ≤ ((add_distance_data pts).getD m default).distance_from_start :=
    add_distance_data_dist_nonneg pts _ (getD_mem default hmltP)
  have hflen2 : 2 ≤ (remove_redundant_points ⟨10, 5, 20⟩
      (add_distance_data pts)).length :=
    remove_redundant_points_length_ge _ _ (by omega)
  have hlngP : ∀ q ∈ add_distance_data pts, q.longitude = L := by
    intro q hq
    obtain ⟨p, hp, _, hlg, _⟩ := add_distance_data_mem pts q hq
    rw [hlg, hlng p hp]
  have hsimp : douglas_peucker (remove_redundant_points ⟨10, 5, 20⟩
      (add_distance_data pts)) ((⟨10, 5, 20⟩ : GPXOptimizer).distance_tolerance) =
      [(add_distance_data pts).headI, (add_distance_data pts).getLastI] := by
    rw [douglas_peucker_same_longitude _ _ L hflen2
      (by
        show (0:ℝ) ≤ 10
        norm_num)
      (fun q hq => hlngP q ((remove_redundant_points_sublist _ _).subset hq))]
    rw [remove_redundant_points_headI, remove_redundant_points_getLastI]
  have hstage : elevation_preserved_stage ⟨10, 5, 20⟩ pts =
      (add_distance_data pts).headI ::
        merge_aux (add_distance_data pts).headI
          [(add_distance_data pts).getD m default, (add_distance_data pts).getLastI] := by
    unfold elevation_preserved_stage
    rw [preserve_elevation_features_eq, hsimp, hfeat]
    have happ : ([(add_distance_data pts).headI, (add_distance_data pts).getLastI] :
        List WorkingPoint) ++ [(add_distance_data pts).getD m default] =
        [(add_distance_data pts).headI, (add_distance_data pts).getLastI,
          (add_distance_data pts).getD m default] := rfl
    rw [happ]
    have hsort : sort_by_distance
        [(add_distance_data pts).headI, (add_distance_data pts).getLastI,
          (add_distance_data pts).getD m default] =
        [(add_distance_data pts).headI, (add_distance_data pts).getD m default,
          (add_distance_data pts).getLastI] := by
      show sort_insert (add_distance_data pts).headI
        (sort_insert (add_distance_data pts).getLastI
          (sort_insert ((add_distance_data pts).getD m default) [])) = _
      have h1 : sort_insert ((add_distance_data pts).getD m default)
          ([] : List WorkingPoint) = [(add_distance_data pts).getD m default] := rfl
      rw [h1, sort_insert, if_neg (not_le.mpr hmid)]
      have h2 : sort_insert ((add_distance_data pts).getLastI)
          ([] : List WorkingPoint) = [(add_distance_data pts).getLastI] := rfl
      rw [h2, sort_insert, if_pos (by rw [hd0]; exact hdm0)]
    rw [hsort]
  have hqmlat : ((add_distance_data pts).getD m default).latitude =
      (pts.getD m default).latitude := by
    rw [(add_distance_data_getElem pts m hmlt).1, List.getD_eq_getElem pts default hmlt]
  have hqmlng : ((add_distance_data pts).getD m default).longitude =
      (pts.getD m default).longitude := by
    rw [(add_distance_data_getElem pts m hmlt).2.1,
      List.getD_eq_getElem pts default hmlt]
  have hqmelev : ((add_distance_data pts).getD m default).elevation = 50 := by
    rw [(add_distance_data_getElem pts m hmlt).2.2.1]
    rw [List.getD_eq_getElem pts default hmlt] at helevm
    exact helevm
  rw [optimize_track_eq_main _ _ (by omega), hstage]
  by_cases hsep2 : 5 < haversine_distance
      ((add_distance_data pts).getD m default).latitude
      ((add_distance_data pts).getD m default).longitude
      ((add_distance_data pts).getLastI).latitude
      ((add_distance_data pts).getLastI).longitude
  · have hmerge : merge_aux (add_distance_data pts).headI
        [(add_distance_data pts).getD m default, (add_distance_data pts).getLastI] =
        [(add_distance_data pts).getD m default, (add_distance_data pts).getLastI] := by
      rw [merge_aux, if_pos hsep, merge_aux, if_pos hsep2, merge_aux]
    rw [hmerge]
    have hens : ensure_minimum_density ⟨10, 5, 20⟩
        [(add_distance_data pts).headI, (add_distance_data pts).getD m default,
          (add_distance_data pts).getLastI] =
        some [(add_distance_data pts).headI, (add_distance_data pts).getD m default,
          (add_distance_data pts).getLastI] := by
      unfold ensure_minimum_density
      rw [if_neg (by simp), if_pos]
      unfold max_total_points
      have hgl : ([(add_distance_data pts).headI,
          (add_distance_data pts).getD m default,
          (add_distance_data pts).getLastI] : List WorkingPoint).getLastI =
          (add_distance_data pts).getLastI := rfl
      rw [hgl]
      have hmp : (((⟨10, 5, 20⟩ : GPXOptimizer).max_points_per_km : ℕ) : ℝ) =
          ((20:ℕ):ℝ) := rfl
      rw [hmp]
      have hdz : (150:ℝ) ≤ (add_distance_data pts).getLastI.distance_from_start := by
        linarith
      rw [Optimizer.pyint_nonneg_eq_floor (by
        show (0:ℝ) ≤ (add_distance_data pts).getLastI.distance_from_start / 1000 *
          ((20:ℕ):ℝ)
        positivity)]
      have h3 : ((3:ℤ):ℝ) ≤ (add_distance_data pts).getLastI.distance_from_start /
          1000 * ((20:ℕ):ℝ) := by
        push_cast
        linarith
      have hfl := Int.le_floor.mpr h3
      have hlen3 : (([(add_distance_data pts).headI,
          (add_distance_data pts).getD m default,
          (add_distance_data pts).getLastI] : List WorkingPoint).length : ℤ) = 3 := rfl
      omega
    rw [hens]
    refine ⟨_, rfl, ?_⟩
    refine ⟨⟨((add_distance_data pts).getD m default).latitude,
      ((add_distance_data pts).getD m default).longitude,
      ((add_distance_data pts).getD m default).elevation,
      ((add_distance_data pts).getD m default).distance_from_start⟩, ?_, ?_, ?_, ?_⟩
    · unfold convert_to_track_points
      apply List.mem_map.mpr
      exact ⟨(add_distance_data pts).getD m default, by simp, rfl⟩
    · exact hqmlat
    · exact hqmlng
    · exact hqmelev
  · have hmerge : merge_aux (add_distance_data pts).headI
        [(add_distance_data pts).getD m default, (add_distance_data pts).getLastI] =
        [(add_distance_data pts).getD m default] := by
      rw [merge_aux, if_pos hsep, merge_aux, if_neg hsep2, merge_aux]
    rw [hmerge]
    have hens : ensure_minimum_density ⟨10, 5, 20⟩
        [(add_distance_data pts).headI, (add_distance_data pts).getD m default] =
        some [(add_distance_data pts).headI, (add_distance_data pts).getD m default] := by
      unfold ensure_minimum_density
      rw [if_neg (by simp), if_pos]
      unfold max_total_points
      have hgl : ([(add_distance_data pts).headI,
          (add_distance_data pts).getD m default] : List WorkingPoint).getLastI =
          (add_distance_data pts).getD m default := rfl
      rw [hgl]
      have hmp : (((⟨10, 5, 20⟩ : GPXOptimizer).max_points_per_km : ℕ) : ℝ) =
          ((20:ℕ):ℝ) := rfl
      rw [hmp]
      rw [Optimizer.pyint_nonneg_eq_floor (by
        show (0:ℝ) ≤ ((add_distance_data pts).getD m default).distance_from_start /
          1000 * ((20:ℕ):ℝ)
        positivity)]
      have h3 : ((3:ℤ):ℝ) ≤
          ((add_distance_data pts).getD m default).distance_from_start / 1000 *
          ((20:ℕ):ℝ) := by
        push_cast
        linarith
      have hfl := Int.le_floor.mpr h3
      have hlen2 : (([(add_distance_data pts).headI,
          (add_distance_data pts).getD m default] : List WorkingPoint).length : ℤ) = 2 :=
        rfl
      omega
    rw [hens]
    refine ⟨_, rfl, ?_⟩
    refine ⟨⟨((add_distance_data pts).getD m default).latitude,
      ((add_distance_data pts).getD m default).longitude,
      ((add_distance_data pts).getD m default).elevation,
      ((add_distance_data pts).getD m default).distance_from_start⟩, ?_, ?_, ?_, ?_⟩
    · unfold convert_to_track_points
      apply List.mem_map.mpr
      exact ⟨(add_distance_data pts).getD m default, by simp, rfl⟩
    · exact hqmlat
    · exact hqmlng
    · exact hqmelev

open Optimizer in
/-- Distance annotation of an 11-point track climbing the prime meridian in
6-degree steps, with a 50 m elevation spike at the middle point. -/
theorem eleven_meridian_proc :
    add_distance_data
      [⟨0, 0, 0⟩, ⟨6, 0, 0⟩, ⟨12, 0, 0⟩, ⟨18, 0, 0⟩, ⟨24, 0, 0⟩, ⟨30, 0, 50⟩,
        ⟨36, 0, 0⟩, ⟨42, 0, 0⟩, ⟨48, 0, 0⟩, ⟨54, 0, 0⟩, ⟨60, 0, 0⟩] =
      [⟨0, 0, 0, 0, 0⟩,
        ⟨6, 0, 0, 6371000 * radians 6, 1⟩,
        ⟨12, 0, 0, 6371000 * radians 12, 2⟩,
        ⟨18, 0, 0, 6371000 * radians 18, 3⟩,
        ⟨24, 0, 0, 6371000 * radians 24, 4⟩,
        ⟨30, 0, 50, 6371000 * radians 30, 5⟩,
        ⟨36, 0, 0, 6371000 * radians 36, 6⟩,
        ⟨42, 0, 0, 6371000 * radians 42, 7⟩,
        ⟨48, 0, 0, 6371000 * radians 48, 8⟩,
        ⟨54, 0, 0, 6371000 * radians 54, 9⟩,
        ⟨60, 0, 0, 6371000 * radians 60, 10⟩] := by
  have s1 : haversine_distance 0 0 6 0 = 6371000 * radians 6 := by
    have h := haversine_meridian 0 6 0 (by norm_num) (by norm_num)
    norm_num at h
    exact h
  have s2 : haversine_distance 6 0 12 0 = 6371000 * radians 6 := by
    have h := haversine_meridian 6 12 0 (by norm_num) (by norm_num)
    norm_num at h
    exact h
  have s3 : haversine_distance 12 0 18 0 = 6371000 * radians 6 := by
    have h := haversine_meridian 12 18 0 (by norm_num) (by norm_num)
    norm_num at h
    exact h
  have s4 : haversine_distance 18 0 24 0 = 6371000 * radians 6 := by
    have h := haversine_meridian 18 24 0 (by norm_num) (by norm_num)
    norm_num at h
    exact h
  have s5 : haversine_distance 24 0 30 0 = 6371000 * radians 6 := by
    have h := haversine_meridian 24 30 0 (by norm_num) (by norm_num)
    norm_num at h
    exact h
  have s6 : haversine_distance 30 0 36 0 = 6371000 * radians 6 := by
    have h := haversine_meridian 30 36 0 (by norm_num) (by norm_num)
    norm_num at h
    exact h
  have s7 : haversine_distance 36 0 42 0 = 6371000 * radians 6 := by
    have h := haversine_meridian 36 42 0 (by norm_num) (by norm_num)
    norm_num at h
    exact h
  have s8 : haversine_distance 42 0 48 0 = 6371000 * radians 6 := by
    have h := haversine_meridian 42 48 0 (by norm_num) (by norm_num)
    norm_num at h
    exact h
  have s9 : haversine_distance 48 0 54 0 = 6371000 * radians 6 := by
    have h := haversine_meridian 48 54 0 (by norm_num) (by norm_num)
    norm_num at h
    exact h
  have s10 : haversine_distance 54 0 60 0 = 6371000 * radians 6 := by
    have h := haversine_meridian 54 60 0 (by norm_num) (by norm_num)
    norm_num at h
    exact h
  have a2 : 6371000 * radians 6 + 6371000 * radians 6 = 6371000 * radians 12 := by
    unfold radians
    ring
  have a3 : 6371000 * radians 12 + 6371000 * radians 6 = 6371000 * radians 18 := by
    unfold radians
    ring
  have a4 : 6371000 * radians 18 + 6371000 * radians 6 = 6371000 * radians 24 := by
    unfold radians
    ring
  have a5 : 6371000 * radians 24 + 6371000 * radians 6 = 6371000 * radians 30 := by
    unfold radians
    ring
  have a6 : 6371000 * radians 30 + 6371000 * radians 6 = 6371000 * radians 36 := by
    unfold radians
    ring
  have a7 : 6371000 * radians 36 + 6371000 * radians 6 = 6371000 * radians 42 := by
    unfold radians
    ring
  have a8 : 6371000 * radians 42 + 6371000 * radians 6 = 6371000 * radians 48 := by
    unfold radians
    ring
  have a9 : 6371000 * radians 48 + 6371000 * radians 6 = 6371000 * radians 54 := by
    unfold radians
    ring
  have a10 : 6371000 * radians 54 + 6371000 * radians 6 = 6371000 * radians 60 := by
    unfold radians
    ring
  simp [add_distance_data, add_distance_data_aux, s1, s2, s3, s4, s5, s6, s7, s8,
    s9, s10, a2, a3, a4, a5, a6, a7, a8, a9, a10]

open Optimizer in
/-- Witness for C2: on the 11-point meridian track with a 50 m spike at the
middle point (latitude 30), `optimize_track` with the default configuration
succeeds and its output contains the spike point. -/
theorem C2_elevation_spike_retained_witness :
    ∃ out, optimize_track ⟨10, 5, 20⟩
      [⟨0, 0, 0⟩, ⟨6, 0, 0⟩, ⟨12, 0, 0⟩, ⟨18, 0, 0⟩, ⟨24, 0, 0⟩, ⟨30, 0, 50⟩,
        ⟨36, 0, 0⟩, ⟨42, 0, 0⟩, ⟨48, 0, 0⟩, ⟨54, 0, 0⟩, ⟨60, 0, 0⟩] = some out ∧
      ∃ q ∈ out, q.latitude = 30 ∧ q.longitude = 0 ∧ q.elevation = 50 := by
  have hpi := Real.pi_gt_three
  obtain ⟨out, hout, q, hq, hlat, hlng, helev⟩ :=
    C2_elevation_spike_retained
      [⟨0, 0, 0⟩, ⟨6, 0, 0⟩, ⟨12, 0, 0⟩, ⟨18, 0, 0⟩, ⟨24, 0, 0⟩, ⟨30, 0, 50⟩,
        ⟨36, 0, 0⟩, ⟨42, 0, 0⟩, ⟨48, 0, 0⟩, ⟨54, 0, 0⟩, ⟨60, 0, 0⟩] 5 0
      (by norm_num)
      (by norm_num)
      (by norm_num)
      (by
        intro p hp
        simp only [List.mem_cons, List.not_mem_nil, or_false] at hp
        rcases hp with h | h | h | h | h | h | h | h | h | h | h <;> rw [h])
      (by
        intro i hi hne
        norm_num at hi
        interval_cases i <;> first | rfl | exact absurd rfl hne)
      rfl
      (by
        rw [eleven_meridian_proc]
        show (5:ℝ) < haversine_distance 0 0 30 0
        have h30 := haversine_meridian 0 30 0 (by norm_num) (by norm_num)
        norm_num at h30
        rw [h30]
        unfold radians
        nlinarith)
      (by
        rw [eleven_meridian_proc]
        show 6371000 * radians 30 < 6371000 * radians 60
        unfold radians
        nlinarith)
      (by
        rw [eleven_meridian_proc]
        show (150:ℝ) ≤ 6371000 * radians 30
        unfold radians
        nlinarith)
  exact ⟨out, hout, q, hq, hlat, hlng, helev⟩

/-- Concrete instance of C6 at a two-point track. -/
theorem C6_monotonic_distance_witness :
    (∀ i, i + 1 < ([⟨1, 2, 3, 0⟩, ⟨4, 5, 6, 0⟩] : List TrackPoint).length →
      (([⟨1, 2, 3, 0⟩, ⟨4, 5, 6, 0⟩] : List TrackPoint).getD i
        default).distance_from_start ≤
        (([⟨1, 2, 3, 0⟩, ⟨4, 5, 6, 0⟩] : List TrackPoint).getD (i + 1)
          default).distance_from_start) ∧
    (Optimizer.add_distance_data [⟨1, 2, 3⟩, ⟨4, 5, 6⟩]).Pairwise
      (fun a b => a.distance_from_start ≤ b.distance_from_start) ∧
    (3 ≤ ([⟨1, 2, 3⟩, ⟨4, 5, 6⟩] : List RawPoint).length →
      ∀ q ∈ ([⟨1, 2, 3, 0⟩, ⟨4, 5, 6, 0⟩] : List TrackPoint),
        ∃ p ∈ Optimizer.add_distance_data [⟨1, 2, 3⟩, ⟨4, 5, 6⟩],
        q.latitude = p.latitude ∧ q.longitude = p.longitude ∧
        q.elevation = p.elevation ∧
        q.distance_from_start = p.distance_from_start) :=
  C6_monotonic_distance ⟨10, 5, 20⟩ [⟨1, 2, 3⟩, ⟨4, 5, 6⟩] [⟨1, 2, 3, 0⟩, ⟨4, 5, 6, 0⟩]
    (by unfold Optimizer.optimize_track
        rw [if_pos (by simp)]
        rfl)

end

end Gpx
